import Mathlib

/-!
Verification of the core of the `react-particles-lite` particle engine.

The engine's numeric state (positions, velocities, radii, opacities,
configuration values) is embedded over `ℚ`.  The transcendental host
primitives (`Math.sqrt`, `Math.cos`, `Math.sin`, `Math.atan2`, `Math.PI`)
are passed in as an explicit `Oracle` record of rational-valued functions,
so every definition stays executable and theorems quantify over the
oracle wherever the code's behaviour does not depend on its values.
-/

set_option linter.unusedVariables false

namespace ParticlesLite

/-- Per-particle simulation state (the mutable fields of `class Particle`).
`pid` stands for the JavaScript object identity: the engine never creates
two particles that are the same object, and `p1 === p2` in the source is
modelled as `p1.pid = p2.pid`. -/
structure Particle where
  pid : ℕ
  x : ℚ
  y : ℚ
  vx : ℚ
  vy : ℚ
  radius : ℚ
  opacity : ℚ
  initialRadius : ℚ
  initialOpacity : ℚ
  opacityDirection : ℚ
  sizeDirection : ℚ
  swayPhase : ℚ
  rotation : ℚ
  rotationRadians : ℚ
  deriving DecidableEq, Repr

/-- Mouse state tracked by the engine. -/
structure Mouse where
  x : ℚ
  y : ℚ
  active : Bool
  deriving DecidableEq, Repr

/-- Rational-valued stand-ins for the host's transcendental primitives. -/
structure Oracle where
  sqrtFn : ℚ → ℚ
  cosFn : ℚ → ℚ
  sinFn : ℚ → ℚ
  atan2Fn : ℚ → ℚ → ℚ
  piVal : ℚ

/-! ### Configuration record (the fields the core reads) -/

/-- `opacity.anim` configuration. -/
structure OpacityAnim where
  enable : Bool
  speed : ℚ
  opacity_min : ℚ
  sync : Bool
  deriving DecidableEq, Repr

/-- `opacity` configuration. -/
structure OpacityCfg where
  value : ℚ
  random : Bool
  anim : OpacityAnim
  deriving DecidableEq, Repr

/-- `size.anim` configuration. -/
structure SizeAnim where
  enable : Bool
  speed : ℚ
  size_min : ℚ
  sync : Bool
  deriving DecidableEq, Repr

/-- `size` configuration. -/
structure SizeCfg where
  value : ℚ
  random : Bool
  anim : SizeAnim
  deriving DecidableEq, Repr

/-- `rotate.anim` configuration. -/
structure RotateAnim where
  enable : Bool
  speed : ℚ
  direction : String
  sync : Bool
  deriving DecidableEq, Repr

/-- `rotate` configuration. -/
structure RotateCfg where
  enable : Bool
  value : ℚ
  random : Bool
  anim : RotateAnim
  deriving DecidableEq, Repr

/-- `move.attract` configuration. -/
structure AttractCfg where
  enable : Bool
  rotateX : ℚ
  rotateY : ℚ
  deriving DecidableEq, Repr

/-- `move` configuration (the fields read by `handleOutMode` and
`applyAttraction`). -/
structure MoveCfg where
  enable : Bool
  speed : ℚ
  out_mode : String
  attract : AttractCfg
  deriving DecidableEq, Repr

/-- `sway` configuration. -/
structure SwayCfg where
  enable : Bool
  amplitude : ℚ
  frequency : ℚ
  random : Bool
  deriving DecidableEq, Repr

/-- `number.density` configuration. -/
structure DensityCfg where
  enable : Bool
  area : ℚ
  deriving DecidableEq, Repr

/-- `number` configuration. -/
structure NumberCfg where
  value : ℚ
  density : DensityCfg
  deriving DecidableEq, Repr

/-- One `interactivity.events` entry (`onhover` / `onclick`). -/
structure EventCfg where
  enable : Bool
  mode : String
  deriving DecidableEq, Repr

/-- `interactivity.events`. -/
structure EventsCfg where
  onhover : EventCfg
  onclick : EventCfg
  deriving DecidableEq, Repr

/-- `interactivity.modes.grab`. -/
structure GrabMode where
  distance : ℚ
  deriving DecidableEq, Repr

/-- `interactivity.modes.bubble`.  The optional `opacity` target is read
through a JavaScript truthiness test, hence `Option ℚ`. -/
structure BubbleMode where
  distance : ℚ
  size : ℚ
  duration : ℚ
  opacity : Option ℚ
  deriving DecidableEq, Repr

/-- `interactivity.modes.repulse`. -/
structure RepulseMode where
  distance : ℚ
  duration : ℚ
  deriving DecidableEq, Repr

/-- `interactivity.modes.push`. -/
structure PushMode where
  quantity : ℕ
  deriving DecidableEq, Repr

/-- `interactivity.modes.remove`. -/
structure RemoveMode where
  quantity : ℕ
  deriving DecidableEq, Repr

/-- `interactivity.modes`. -/
structure ModesCfg where
  grab : GrabMode
  bubble : BubbleMode
  repulse : RepulseMode
  push : PushMode
  remove : RemoveMode
  deriving DecidableEq, Repr

/-- `interactivity`. -/
structure InteractivityCfg where
  detect_on : String
  events : EventsCfg
  modes : ModesCfg
  deriving DecidableEq, Repr

/-- The merged engine configuration (`Required<IParticleParams>`),
restricted to the fields the verified core reads. -/
structure Config where
  number : NumberCfg
  opacity : OpacityCfg
  size : SizeCfg
  rotate : RotateCfg
  move : MoveCfg
  sway : SwayCfg
  interactivity : InteractivityCfg
  deriving DecidableEq, Repr

/-! ### QuadTree (`src/utils/QuadTree.ts`) -/

/-- Axis-aligned rectangle used for partition cells and query ranges
(`class Boundary`). -/
structure Boundary where
  x : ℚ
  y : ℚ
  w : ℚ
  h : ℚ
  deriving DecidableEq, Repr

/-- `Boundary.contains`: tests whether a particle's position lies within
this boundary, all four edges inclusive. -/
def Boundary.contains (b : Boundary) (p : Particle) : Bool :=
  decide (p.x ≥ b.x) && decide (p.x ≤ b.x + b.w) &&
  decide (p.y ≥ b.y) && decide (p.y ≤ b.y + b.h)

/-- `Boundary.intersects`: rectangle intersection test, inclusive of shared
edges. -/
def Boundary.intersects (b : Boundary) (range : Boundary) : Bool :=
  !(decide (range.x > b.x + b.w) || decide (range.x + range.w < b.x) ||
    decide (range.y > b.y + b.h) || decide (range.y + range.h < b.y))

/-- North-west quadrant produced by `QuadTree.subdivide`. -/
def nwQuad (b : Boundary) : Boundary := ⟨b.x, b.y, b.w / 2, b.h / 2⟩

/-- North-east quadrant produced by `QuadTree.subdivide`. -/
def neQuad (b : Boundary) : Boundary := ⟨b.x + b.w / 2, b.y, b.w / 2, b.h / 2⟩

/-- South-west quadrant produced by `QuadTree.subdivide`. -/
def swQuad (b : Boundary) : Boundary := ⟨b.x, b.y + b.h / 2, b.w / 2, b.h / 2⟩

/-- South-east quadrant produced by `QuadTree.subdivide`. -/
def seQuad (b : Boundary) : Boundary :=
  ⟨b.x + b.w / 2, b.y + b.h / 2, b.w / 2, b.h / 2⟩

/-- A QuadTree node: `leaf` is an undivided node (`divided = false`),
`node` is a subdivided one with its four children in NW, NE, SW, SE
order.  The capacity is the source's constant 4. -/
inductive QuadTree where
  | leaf (boundary : Boundary) (particles : List Particle)
  | node (boundary : Boundary) (particles : List Particle)
      (nw ne sw se : QuadTree)
  deriving DecidableEq, Repr

namespace QuadTree

/-- The boundary owned by a node. -/
def boundary : QuadTree → Boundary
  | .leaf b _ => b
  | .node b _ _ _ _ _ => b

/-- The particles held directly at a node. -/
def own : QuadTree → List Particle
  | .leaf _ ps => ps
  | .node _ ps _ _ _ _ => ps

/-- All particles stored anywhere in the subtree, in node-first,
NW-NE-SW-SE order. -/
def stored : QuadTree → List Particle
  | .leaf _ ps => ps
  | .node _ ps nw ne sw se =>
      ps ++ (nw.stored ++ (ne.stored ++ (sw.stored ++ se.stored)))

/-- Insertion into a freshly created (empty) child: one unrolling of
`QuadTree.insert` on an empty leaf. -/
def leafInsert (b : Boundary) (p : Particle) : QuadTree × Bool :=
  if b.contains p then (.leaf b [p], true) else (.leaf b [], false)

/-- `QuadTree.insert`: fails if the position is out of bounds; stores the
particle directly while under capacity; otherwise subdivides (lazily,
at most once) and delegates to the children in NW, NE, SW, SE order,
short-circuiting on the first success as `a || b || c || d` does. -/
def insert : QuadTree → Particle → QuadTree × Bool
  | .leaf b ps, p =>
      if b.contains p then
        if ps.length < 4 then (.leaf b (ps ++ [p]), true)
        else
          -- subdivide, then try the fresh children in order
          let r1 := leafInsert (nwQuad b) p
          if r1.2 then (.node b ps r1.1 (.leaf (neQuad b) [])
              (.leaf (swQuad b) []) (.leaf (seQuad b) []), true)
          else
            let r2 := leafInsert (neQuad b) p
            if r2.2 then (.node b ps r1.1 r2.1 (.leaf (swQuad b) [])
                (.leaf (seQuad b) []), true)
            else
              let r3 := leafInsert (swQuad b) p
              if r3.2 then (.node b ps r1.1 r2.1 r3.1
                  (.leaf (seQuad b) []), true)
              else
                let r4 := leafInsert (seQuad b) p
                (.node b ps r1.1 r2.1 r3.1 r4.1, r4.2)
      else (.leaf b ps, false)
  | .node b ps nw ne sw se, p =>
      if b.contains p then
        if ps.length < 4 then (.node b (ps ++ [p]) nw ne sw se, true)
        else
          let r1 := nw.insert p
          if r1.2 then (.node b ps r1.1 ne sw se, true)
          else
            let r2 := ne.insert p
            if r2.2 then (.node b ps r1.1 r2.1 sw se, true)
            else
              let r3 := sw.insert p
              if r3.2 then (.node b ps r1.1 r2.1 r3.1 se, true)
              else
                let r4 := se.insert p
                (.node b ps r1.1 r2.1 r3.1 r4.1, r4.2)
      else (.node b ps nw ne sw se, false)

/-- `QuadTree.query`: collects the stored particles inside `range`,
pruning subtrees whose boundary does not intersect it.  The source
threads an accumulator `found`; the result list here is the same
sequence (node particles first, then NW, NE, SW, SE). -/
def query : QuadTree → Boundary → List Particle
  | .leaf b ps, range =>
      if b.intersects range then ps.filter (fun q => range.contains q)
      else []
  | .node b ps nw ne sw se, range =>
      if b.intersects range then
        ps.filter (fun q => range.contains q) ++
          (nw.query range ++ (ne.query range ++
            (sw.query range ++ se.query range)))
      else []

/-- Structural invariant of every tree the engine builds: a subdivided
node's children own exactly the four quadrants of its boundary. -/
def wf : QuadTree → Prop
  | .leaf _ _ => True
  | .node b _ nw ne sw se =>
      nw.boundary = nwQuad b ∧ ne.boundary = neQuad b ∧
      sw.boundary = swQuad b ∧ se.boundary = seQuad b ∧
      nw.wf ∧ ne.wf ∧ sw.wf ∧ se.wf

/-- Containment invariant: every particle stored in a subtree lies within
that subtree's boundary. -/
def inv : QuadTree → Prop
  | .leaf b ps => ∀ q ∈ ps, b.contains q = true
  | .node b ps nw ne sw se =>
      (∀ q ∈ ps ++ (nw.stored ++ (ne.stored ++ (sw.stored ++ se.stored))),
        b.contains q = true) ∧
      nw.inv ∧ ne.inv ∧ sw.inv ∧ se.inv

end QuadTree

/-- The tree the engine builds every tick: successive insertion of the
current particle list into a fresh tree over the given boundary. -/
def buildTree (b : Boundary) (ps : List Particle) : QuadTree :=
  ps.foldl (fun t p => (t.insert p).1) (.leaf b [])

/-! ### Physics (`src/utils/physics.ts`) -/

/-- `handleOutMode`: boundary policy applied right after position
integration.  `bounce` reflects the *edge* of the particle (position
offset by radius) with exact overlap correction; any other mode wraps a
fully exited particle by `dimension + 2 * radius`. -/
def handleOutMode (move : MoveCfg) (width height : ℚ) (particle : Particle) :
    Particle :=
  let r := particle.radius
  let wrapWidth := width + r * 2
  let wrapHeight := height + r * 2
  if move.out_mode = "bounce" then
    let p1 :=
      if particle.x - r ≤ 0 ∧ particle.vx < 0 then
        let overlap := -(particle.x - r)
        { particle with vx := particle.vx * (-1), x := r + overlap }
      else if particle.x + r ≥ width ∧ particle.vx > 0 then
        let overlap := particle.x + r - width
        { particle with vx := particle.vx * (-1), x := width - r - overlap }
      else particle
    if p1.y - r ≤ 0 ∧ p1.vy < 0 then
      let overlap := -(p1.y - r)
      { p1 with vy := p1.vy * (-1), y := r + overlap }
    else if p1.y + r ≥ height ∧ p1.vy > 0 then
      let overlap := p1.y + r - height
      { p1 with vy := p1.vy * (-1), y := height - r - overlap }
    else p1
  else
    let p1 :=
      if particle.x + r < 0 then { particle with x := particle.x + wrapWidth }
      else if particle.x - r > width then
        { particle with x := particle.x - wrapWidth }
      else particle
    if p1.y + r < 0 then { p1 with y := p1.y + wrapHeight }
    else if p1.y - r > height then { p1 with y := p1.y - wrapHeight }
    else p1

/-- The body of the neighbour loop of `applyAttraction`: skip when
`p1 === p2`, otherwise `p1.vx -= dx / rotX; p1.vy -= dy / rotY` with
`(dx, dy)` the position difference. -/
def attractStep (rotX rotY : ℚ) (q p2 : Particle) : Particle :=
  if q.pid = p2.pid then q
  else
    { q with vx := q.vx - (q.x - p2.x) / rotX,
             vy := q.vy - (q.y - p2.y) / rotY }

/-- The inner loop of `applyAttraction` for one particle `p1`: query the
tree for the square of half-width 200 centered on `p1` and subtract
`(dx / (rotateX * 1000), dy / (rotateY * 1000))` from its velocity for
every neighbour that is a different object. -/
def attractOne (attract : AttractCfg) (qtree : QuadTree) (p1 : Particle) :
    Particle :=
  let rotX := attract.rotateX * 1000
  let rotY := attract.rotateY * 1000
  let rangeRadius : ℚ := 200
  let range : Boundary :=
    ⟨p1.x - rangeRadius, p1.y - rangeRadius, rangeRadius * 2, rangeRadius * 2⟩
  let neighbors := qtree.query range
  neighbors.foldl (attractStep rotX rotY) p1

/-- `applyAttraction`: a no-op when attraction is disabled; otherwise each
particle's velocity is adjusted from its spatial-index neighbourhood.
The source's in-place loop only writes the current particle's velocity
and only reads positions, so it acts independently on each entry. -/
def applyAttraction (config : Config) (qtree : QuadTree)
    (particles : List Particle) : List Particle :=
  if config.move.attract.enable then
    particles.map (attractOne config.move.attract qtree)
  else particles

/-! ### Particle animation machines (`src/classes/Particle.ts`) -/

/-- `Particle.handleSway`: advance the phase accumulator and add the
lateral cosine displacement to `x`. -/
def handleSway (cfg : Config) (o : Oracle) (delta : ℚ) (p : Particle) :
    Particle :=
  if cfg.sway.enable then
    let phase := p.swayPhase + cfg.sway.frequency * delta
    { p with swayPhase := phase,
             x := p.x + o.cosFn phase * (cfg.sway.amplitude * (1 / 10)) * delta }
  else p

/-- `Particle.handleOpacityAnimation`: linear ping-pong between
`opacity_min` and the configured opacity, clamped to `[0, 1]`, caching
the reached value as the new initial opacity. -/
def handleOpacityAnimation (cfg : Config) (delta : ℚ) (p : Particle) :
    Particle :=
  if cfg.opacity.anim.enable then
    let o1 := p.opacity + cfg.opacity.anim.speed / 1000 * p.opacityDirection * delta
    let step :
        ℚ × ℚ :=
      if o1 ≥ cfg.opacity.value then (cfg.opacity.value, -1)
      else if o1 ≤ cfg.opacity.anim.opacity_min then
        (cfg.opacity.anim.opacity_min, 1)
      else (o1, p.opacityDirection)
    let o2 := if step.1 < 0 then 0 else step.1
    let o3 := if o2 > 1 then 1 else o2
    { p with opacity := o3, opacityDirection := step.2, initialOpacity := o3 }
  else p

/-- `Particle.handleSizeAnimation`: linear ping-pong between `size_min`
and the configured size, clamped to `[0, size.value]`, caching the
reached value as the new initial radius. -/
def handleSizeAnimation (cfg : Config) (delta : ℚ) (p : Particle) :
    Particle :=
  if cfg.size.anim.enable then
    let r1 := p.radius + cfg.size.anim.speed / 100 * p.sizeDirection * delta
    let step :
        ℚ × ℚ :=
      if r1 ≥ cfg.size.value then (cfg.size.value, -1)
      else if r1 ≤ cfg.size.anim.size_min then (cfg.size.anim.size_min, 1)
      else (r1, p.sizeDirection)
    let r2 := if step.1 < 0 then 0 else step.1
    let r3 := if r2 > cfg.size.value then cfg.size.value else r2
    { p with radius := r3, sizeDirection := step.2, initialRadius := r3 }
  else p

/-- `Particle.handleRotationAnimation`: advance the angle, keep it within
one turn, recompute the radian cache. -/
def handleRotationAnimation (cfg : Config) (o : Oracle) (delta : ℚ)
    (p : Particle) : Particle :=
  if cfg.rotate.enable ∧ cfg.rotate.anim.enable then
    let rot := p.rotation +
      cfg.rotate.anim.speed *
        (if cfg.rotate.anim.direction = "clockwise" then 1 else -1) * delta
    let rot2 := if rot > 360 then rot - 360 else if rot < 0 then rot + 360 else rot
    { p with rotation := rot2, rotationRadians := rot2 * o.piVal / 180 }
  else p

/-- `Particle.update`: integrate position by velocity, apply the boundary
policy, then run the sway, opacity, size and rotation machines in the
source's order (each guarded by its enable flag). -/
def Particle.update (cfg : Config) (o : Oracle) (width height : ℚ)
    (delta : ℚ) (p : Particle) : Particle :=
  let p1 := { p with x := p.x + p.vx * delta, y := p.y + p.vy * delta }
  let p2 := handleOutMode cfg.move width height p1
  let p3 := if cfg.sway.enable then handleSway cfg o delta p2 else p2
  let p4 := if cfg.opacity.anim.enable then handleOpacityAnimation cfg delta p3
    else p3
  let p5 := if cfg.size.anim.enable then handleSizeAnimation cfg delta p4
    else p4
  if cfg.rotate.enable ∧ cfg.rotate.anim.enable then
    handleRotationAnimation cfg o delta p5
  else p5

/-! ### Pointer interaction (`src/utils/interaction.ts`) -/

/-- The unconditional per-tick reset performed when the hover mode is
`bubble`: radius and opacity return to their cached initial values. -/
def bubbleReset (p : Particle) : Particle :=
  { p with radius := p.initialRadius, opacity := p.initialOpacity }

/-- The effect applied to one neighbour returned by the pointer query:
filter by true circular distance, then apply the active hover mode
(`grab` only draws, `bubble` interpolates radius/opacity, `repulse`
displaces the position away from the pointer). -/
def applyEffect (modes : ModesCfg) (mode : String) (o : Oracle)
    (mouse : Mouse) (queryDist : ℚ) (p : Particle) : Particle :=
  let dx := p.x - mouse.x
  let dy := p.y - mouse.y
  let distSq := dx * dx + dy * dy
  let limitSq := queryDist * queryDist
  if distSq < limitSq then
    let dist := o.sqrtFn distSq
    let pb :=
      if mode = "bubble" then
        let prox := 1 - dist / modes.bubble.distance
        let p1 := { p with radius :=
          p.initialRadius + (modes.bubble.size - p.initialRadius) * prox }
        match modes.bubble.opacity with
        | some targetOpacity =>
            if targetOpacity ≠ 0 then
              { p1 with opacity := p1.initialOpacity +
                  (targetOpacity - p1.initialOpacity) * prox }
            else p1
        | none => p1
      else p
    if mode = "repulse" then
      let force := (modes.repulse.distance - dist) / modes.repulse.distance
      let angle := o.atan2Fn dy dx
      { pb with x := pb.x + o.cosFn angle * force * 10,
                y := pb.y + o.sinFn angle * force * 10 }
    else pb
  else p

/-- `applyInteractions`: when the hover mode is `bubble`, first reset
every particle unconditionally; stop there if the pointer is inactive
or hover is disabled; otherwise query the tree around the pointer and
apply the active mode's effect to each neighbour (identified by object
identity, i.e. `pid`). -/
def applyInteractions (config : Config) (o : Oracle) (qtree : QuadTree)
    (mouse : Mouse) (allParticles : List Particle) : List Particle :=
  let mode := config.interactivity.events.onhover.mode
  let modes := config.interactivity.modes
  let ps1 := if mode = "bubble" then allParticles.map bubbleReset
    else allParticles
  if mouse.active = false ∨ config.interactivity.events.onhover.enable = false
  then ps1
  else
    let queryDist :=
      if mode = "grab" then modes.grab.distance
      else if mode = "bubble" then modes.bubble.distance
      else if mode = "repulse" then modes.repulse.distance
      else 0
    let searchArea : Boundary :=
      ⟨mouse.x - queryDist, mouse.y - queryDist, queryDist * 2, queryDist * 2⟩
    let neighbors := qtree.query searchArea
    neighbors.foldl
      (fun acc n => acc.map
        (fun q => if q.pid = n.pid then
            applyEffect modes mode o mouse queryDist q
          else q))
      ps1

/-! ### Engine (`src/classes/Engine.ts`) -/

namespace Engine

/-- `Engine.calculateParticleCount`: the fixed value when density is
disabled, otherwise the floored density formula capped at 2000. -/
def calculateParticleCount (number : NumberCfg) (canvasW canvasH : ℚ) : ℚ :=
  if number.density.enable then
    let canvasArea := canvasW * canvasH
    let densityArea := max number.density.area (1 / 1000) * 1000
    let count : ℤ := ⌊canvasArea / densityArea * number.value⌋
    ((min count 2000 : ℤ) : ℚ)
  else number.value

/-- Number of particles `Engine.init` creates: the loop
`for (let i = 0; i < count; i++)` runs `⌈count⌉₊` times. -/
def initCount (number : NumberCfg) (canvasW canvasH : ℚ) : ℕ :=
  ⌈calculateParticleCount number canvasW canvasH⌉₊

/-- Squared Euclidean distance from a particle to the pointer, as computed
by the remove-mode comparator. -/
def distSqToMouse (mouse : Mouse) (p : Particle) : ℚ :=
  let dx := p.x - mouse.x
  let dy := p.y - mouse.y
  dx * dx + dy * dy

/-- Stable insertion of a particle into a list sorted by squared distance
to the pointer: placed before the first strictly farther entry, after
every entry at most as far. -/
def insertByDist (mouse : Mouse) (a : Particle) :
    List Particle → List Particle
  | [] => [a]
  | b :: l =>
      if distSqToMouse mouse a ≤ distSqToMouse mouse b then a :: b :: l
      else b :: insertByDist mouse a l

/-- The remove-mode sort: `Array.prototype.sort` with comparator
`distA - distB` is a stable sort by squared distance (ES2019), modelled
here as stable insertion sort. -/
def sortByDistSq (mouse : Mouse) : List Particle → List Particle
  | [] => []
  | a :: l => insertByDist mouse a (sortByDistSq mouse l)

/-- `Engine.handleClick`: push mode appends `quantity` fresh particles at
the pointer (their randomized attributes supplied by `spawn`); remove
mode sorts the whole array by squared distance to the pointer and
splices off the first `quantity` entries. -/
def handleClick (config : Config) (mouse : Mouse) (spawn : ℕ → Particle)
    (particles : List Particle) : List Particle :=
  if config.interactivity.events.onclick.enable = false then particles
  else if config.interactivity.events.onclick.mode = "push" then
    particles ++ (List.range config.interactivity.modes.push.quantity).map spawn
  else if config.interactivity.events.onclick.mode = "remove" then
    (sortByDistSq mouse particles).drop config.interactivity.modes.remove.quantity
  else particles

/-- One full tick of `Engine.render` (after the first-frame baseline):
rebuild the spatial index from the current particles, apply attraction,
apply pointer interactions, then integrate/animate every particle.
Draw emissions carry no simulation state and are omitted. -/
def render (config : Config) (o : Oracle) (mouse : Mouse)
    (width height : ℚ) (delta : ℚ) (particles : List Particle) :
    List Particle :=
  let qtree := buildTree ⟨0, 0, width, height⟩ particles
  let ps1 := applyAttraction config qtree particles
  let ps2 := applyInteractions config o qtree mouse ps1
  ps2.map (Particle.update config o width height delta)

end Engine

/-! ### Geometry lemmas for the spatial index -/

theorem Boundary.contains_iff (b : Boundary) (p : Particle) :
    b.contains p = true ↔
      b.x ≤ p.x ∧ p.x ≤ b.x + b.w ∧ b.y ≤ p.y ∧ p.y ≤ b.y + b.h := by
  simp [Boundary.contains, and_assoc, ge_iff_le]

theorem Boundary.intersects_iff (b range : Boundary) :
    b.intersects range = true ↔
      range.x ≤ b.x + b.w ∧ b.x ≤ range.x + range.w ∧
      range.y ≤ b.y + b.h ∧ b.y ≤ range.y + range.h := by
  simp [Boundary.intersects, not_or, not_lt, and_assoc]

/-- A rectangle holding a point intersects any other rectangle holding
the same point. -/
theorem contains_intersects {b range : Boundary} {p : Particle}
    (hb : b.contains p = true) (hr : range.contains p = true) :
    b.intersects range = true := by
  rw [Boundary.contains_iff] at hb hr
  rw [Boundary.intersects_iff]
  obtain ⟨h1, h2, h3, h4⟩ := hb
  obtain ⟨h5, h6, h7, h8⟩ := hr
  exact ⟨by linarith, by linarith, by linarith, by linarith⟩

/-- The four quadrants cover the parent boundary: a contained point is
contained in at least one quadrant (exact rational arithmetic). -/
theorem quadCover {b : Boundary} {p : Particle}
    (hb : b.contains p = true) :
    (nwQuad b).contains p = true ∨ (neQuad b).contains p = true ∨
    (swQuad b).contains p = true ∨ (seQuad b).contains p = true := by
  rw [Boundary.contains_iff] at hb
  obtain ⟨h1, h2, h3, h4⟩ := hb
  rcases le_or_lt p.x (b.x + b.w / 2) with hx | hx <;>
    rcases le_or_lt p.y (b.y + b.h / 2) with hy | hy
  · exact Or.inl (by rw [Boundary.contains_iff]; exact ⟨h1, hx, h3, hy⟩)
  · refine Or.inr (Or.inr (Or.inl ?_))
    rw [Boundary.contains_iff]
    refine ⟨h1, hx, le_of_lt hy, by simp [swQuad]; linarith⟩
  · refine Or.inr (Or.inl ?_)
    rw [Boundary.contains_iff]
    refine ⟨le_of_lt hx, by simp [neQuad]; linarith, h3, hy⟩
  · refine Or.inr (Or.inr (Or.inr ?_))
    rw [Boundary.contains_iff]
    refine ⟨le_of_lt hx, by simp [seQuad]; linarith, le_of_lt hy,
      by simp [seQuad]; linarith⟩

/-! ### Insertion facts -/

theorem leafInsert_eq (b : Boundary) (p : Particle) :
    QuadTree.leafInsert b p = QuadTree.insert (.leaf b []) p := by
  by_cases hc : b.contains p = true <;>
    simp [QuadTree.leafInsert, QuadTree.insert, hc]

/-- Appending one element, seen as a multiset. -/
theorem coe_snoc (l : List Particle) (a : Particle) :
    ((l ++ [a] : List Particle) : Multiset Particle) = ↑l + {a} := by
  rw [← Multiset.coe_singleton, Multiset.coe_add]

/-- Membership extraction from a stored-multiset equation. -/
theorem mem_of_multiset_snoc {l l' : List Particle} {a : Particle}
    (h : (l' : Multiset Particle) = ↑l + {a}) :
    ∀ q ∈ l', q ∈ l ∨ q = a := by
  intro q hq
  have hm : q ∈ (l' : Multiset Particle) := Multiset.mem_coe.mpr hq
  rw [h] at hm
  simpa using hm

/-- Combined behaviour of `QuadTree.insert` on well-formed trees: the
returned flag equals the boundary test, the boundary is unchanged, both
invariants are preserved, a successful insert adds exactly the new
particle to the stored multiset, and a failed insert leaves the tree
untouched. -/
theorem QuadTree.insert_master (p : Particle) :
    ∀ t : QuadTree, t.wf → t.inv →
      ((t.insert p).2 = t.boundary.contains p) ∧
      ((t.insert p).1.boundary = t.boundary) ∧
      ((t.insert p).1.wf) ∧
      ((t.insert p).1.inv) ∧
      (t.boundary.contains p = true →
        ((t.insert p).1.stored : Multiset Particle) =
          (t.stored : Multiset Particle) + {p}) ∧
      (t.boundary.contains p = false → (t.insert p).1 = t) := by
  intro t
  induction t with
  | leaf b ps =>
    intro hwf hinv
    have hinv' : ∀ q ∈ ps, b.contains q = true := hinv
    by_cases hc : b.contains p = true
    · by_cases hlen : ps.length < 4
      · have hstep : (QuadTree.leaf b ps).insert p =
            (.leaf b (ps ++ [p]), true) := by
          simp [QuadTree.insert, hc, hlen]
        rw [hstep]
        refine ⟨by simp [QuadTree.boundary, hc], rfl, trivial, ?_, ?_, ?_⟩
        · intro q hq
          rcases List.mem_append.mp hq with h | h
          · exact hinv' q h
          · rw [List.mem_singleton] at h; subst h; exact hc
        · intro _
          simp only [QuadTree.stored]
          exact coe_snoc ps p
        · simp [QuadTree.boundary, hc]
      · cases hnw : (nwQuad b).contains p with
        | true =>
          have hstep : (QuadTree.leaf b ps).insert p =
              (.node b ps (.leaf (nwQuad b) [p]) (.leaf (neQuad b) [])
                (.leaf (swQuad b) []) (.leaf (seQuad b) []), true) := by
            simp [QuadTree.insert, QuadTree.leafInsert, hc, hlen, hnw]
          rw [hstep]
          refine ⟨by simp [QuadTree.boundary, hc], rfl,
            by exact ⟨rfl, rfl, rfl, rfl, trivial, trivial, trivial, trivial⟩,
            ?_, ?_, ?_⟩
          · refine ⟨?_, ?_, ?_, ?_, ?_⟩
            · intro q hq
              simp only [QuadTree.stored, List.append_nil] at hq
              rcases List.mem_append.mp hq with h | h
              · exact hinv' q h
              · rw [List.mem_singleton] at h; subst h; exact hc
            · intro q hq; rw [List.mem_singleton] at hq; subst hq; exact hnw
            · intro q hq; cases hq
            · intro q hq; cases hq
            · intro q hq; cases hq
          · intro _
            simp only [QuadTree.stored, List.append_nil]
            exact coe_snoc ps p
          · simp [QuadTree.boundary, hc]
        | false =>
          cases hne : (neQuad b).contains p with
          | true =>
            have hstep : (QuadTree.leaf b ps).insert p =
                (.node b ps (.leaf (nwQuad b) []) (.leaf (neQuad b) [p])
                  (.leaf (swQuad b) []) (.leaf (seQuad b) []), true) := by
              simp [QuadTree.insert, QuadTree.leafInsert, hc, hlen, hnw, hne]
            rw [hstep]
            refine ⟨by simp [QuadTree.boundary, hc], rfl,
              by exact ⟨rfl, rfl, rfl, rfl, trivial, trivial, trivial,
                trivial⟩, ?_, ?_, ?_⟩
            · refine ⟨?_, ?_, ?_, ?_, ?_⟩
              · intro q hq
                simp only [QuadTree.stored, List.append_nil,
                  List.nil_append] at hq
                rcases List.mem_append.mp hq with h | h
                · exact hinv' q h
                · rw [List.mem_singleton] at h; subst h; exact hc
              · intro q hq; cases hq
              · intro q hq; rw [List.mem_singleton] at hq; subst hq; exact hne
              · intro q hq; cases hq
              · intro q hq; cases hq
            · intro _
              simp only [QuadTree.stored, List.append_nil, List.nil_append]
              exact coe_snoc ps p
            · simp [QuadTree.boundary, hc]
          | false =>
            cases hsw : (swQuad b).contains p with
            | true =>
              have hstep : (QuadTree.leaf b ps).insert p =
                  (.node b ps (.leaf (nwQuad b) []) (.leaf (neQuad b) [])
                    (.leaf (swQuad b) [p]) (.leaf (seQuad b) []), true) := by
                simp [QuadTree.insert, QuadTree.leafInsert, hc, hlen, hnw,
                  hne, hsw]
              rw [hstep]
              refine ⟨by simp [QuadTree.boundary, hc], rfl,
                by exact ⟨rfl, rfl, rfl, rfl, trivial, trivial, trivial,
                  trivial⟩, ?_, ?_, ?_⟩
              · refine ⟨?_, ?_, ?_, ?_, ?_⟩
                · intro q hq
                  simp only [QuadTree.stored, List.append_nil,
                    List.nil_append] at hq
                  rcases List.mem_append.mp hq with h | h
                  · exact hinv' q h
                  · rw [List.mem_singleton] at h; subst h; exact hc
                · intro q hq; cases hq
                · intro q hq; cases hq
                · intro q hq; rw [List.mem_singleton] at hq; subst hq
                  exact hsw
                · intro q hq; cases hq
              · intro _
                simp only [QuadTree.stored, List.append_nil, List.nil_append]
                exact coe_snoc ps p
              · simp [QuadTree.boundary, hc]
            | false =>
              cases hse : (seQuad b).contains p with
              | true =>
                have hstep : (QuadTree.leaf b ps).insert p =
                    (.node b ps (.leaf (nwQuad b) []) (.leaf (neQuad b) [])
                      (.leaf (swQuad b) []) (.leaf (seQuad b) [p]), true) := by
                  simp [QuadTree.insert, QuadTree.leafInsert, hc, hlen, hnw,
                    hne, hsw, hse]
                rw [hstep]
                refine ⟨by simp [QuadTree.boundary, hc], rfl,
                  by exact ⟨rfl, rfl, rfl, rfl, trivial, trivial, trivial,
                    trivial⟩, ?_, ?_, ?_⟩
                · refine ⟨?_, ?_, ?_, ?_, ?_⟩
                  · intro q hq
                    simp only [QuadTree.stored, List.append_nil,
                      List.nil_append] at hq
                    rcases List.mem_append.mp hq with h | h
                    · exact hinv' q h
                    · rw [List.mem_singleton] at h; subst h; exact hc
                  · intro q hq; cases hq
                  · intro q hq; cases hq
                  · intro q hq; cases hq
                  · intro q hq; rw [List.mem_singleton] at hq; subst hq
                    exact hse
                · intro _
                  simp only [QuadTree.stored, List.append_nil,
                    List.nil_append]
                  exact coe_snoc ps p
                · simp [QuadTree.boundary, hc]
              | false =>
                exact absurd (quadCover hc) (by simp [hnw, hne, hsw, hse])
    · have hc' : b.contains p = false := by simpa using hc
      have hstep : (QuadTree.leaf b ps).insert p = (.leaf b ps, false) := by
        simp [QuadTree.insert, hc']
      rw [hstep]
      exact ⟨by simp [QuadTree.boundary, hc'], rfl, trivial, hinv,
        by simp [QuadTree.boundary, hc'], fun _ => rfl⟩
  | node b ps nw ne sw se ihnw ihne ihsw ihse =>
    intro hwf hinv
    obtain ⟨hb1, hb2, hb3, hb4, w1, w2, w3, w4⟩ := hwf
    obtain ⟨hall, i1, i2, i3, i4⟩ := hinv
    obtain ⟨e1, e2, e3, e4, e5, e6⟩ := ihnw w1 i1
    obtain ⟨f1, f2, f3, f4, f5, f6⟩ := ihne w2 i2
    obtain ⟨g1, g2, g3, g4, g5, g6⟩ := ihsw w3 i3
    obtain ⟨k1, k2, k3, k4, k5, k6⟩ := ihse w4 i4
    rw [hb1] at e1 e5 e6
    rw [hb2] at f1 f5 f6
    rw [hb3] at g1 g5 g6
    rw [hb4] at k1 k5 k6
    by_cases hc : b.contains p = true
    · by_cases hlen : ps.length < 4
      · have hstep : (QuadTree.node b ps nw ne sw se).insert p =
            (.node b (ps ++ [p]) nw ne sw se, true) := by
          simp [QuadTree.insert, hc, hlen]
        rw [hstep]
        refine ⟨by simp [QuadTree.boundary, hc], rfl,
          ⟨hb1, hb2, hb3, hb4, w1, w2, w3, w4⟩, ?_, ?_, ?_⟩
        · refine ⟨?_, i1, i2, i3, i4⟩
          intro q hq
          rcases List.mem_append.mp hq with hq | hq
          · rcases List.mem_append.mp hq with hq | hq
            · exact hall q (List.mem_append_left _ hq)
            · rw [List.mem_singleton] at hq; subst hq; exact hc
          · exact hall q (List.mem_append_right _ hq)
        · intro _
          simp only [QuadTree.stored, ← Multiset.coe_add,
            ← Multiset.coe_singleton]
          abel
        · simp [QuadTree.boundary, hc]
      · cases hnw : (nwQuad b).contains p with
        | true =>
          have hr1 : (nw.insert p).2 = true := by rw [e1, hnw]
          have hstep : (QuadTree.node b ps nw ne sw se).insert p =
              (.node b ps (nw.insert p).1 ne sw se, true) := by
            simp [QuadTree.insert, hc, hlen, hr1]
          rw [hstep]
          have hst := e5 hnw
          refine ⟨by simp [QuadTree.boundary, hc], rfl,
            ⟨by rw [e2, hb1], hb2, hb3, hb4, e3, w2, w3, w4⟩, ?_, ?_, ?_⟩
          · refine ⟨?_, e4, i2, i3, i4⟩
            intro q hq
            rcases List.mem_append.mp hq with hq | hq
            · exact hall q (List.mem_append_left _ hq)
            · rcases List.mem_append.mp hq with hq | hq
              · rcases mem_of_multiset_snoc hst q hq with h | h
                · exact hall q (List.mem_append_right _
                    (List.mem_append_left _ h))
                · subst h; exact hc
              · exact hall q (List.mem_append_right _
                  (List.mem_append_right _ hq))
          · intro _
            simp only [QuadTree.stored, ← Multiset.coe_add, hst,
              ← Multiset.coe_singleton]
            abel
          · simp [QuadTree.boundary, hc]
        | false =>
          have hr1 : (nw.insert p).2 = false := by rw [e1, hnw]
          have hu1 : (nw.insert p).1 = nw := e6 hnw
          cases hne : (neQuad b).contains p with
          | true =>
            have hr2 : (ne.insert p).2 = true := by rw [f1, hne]
            have hstep : (QuadTree.node b ps nw ne sw se).insert p =
                (.node b ps nw (ne.insert p).1 sw se, true) := by
              simp [QuadTree.insert, hc, hlen, hr1, hr2, hu1]
            rw [hstep]
            have hst := f5 hne
            refine ⟨by simp [QuadTree.boundary, hc], rfl,
              ⟨hb1, by rw [f2, hb2], hb3, hb4, w1, f3, w3, w4⟩, ?_, ?_, ?_⟩
            · refine ⟨?_, i1, f4, i3, i4⟩
              intro q hq
              rcases List.mem_append.mp hq with hq | hq
              · exact hall q (List.mem_append_left _ hq)
              · rcases List.mem_append.mp hq with hq | hq
                · exact hall q (List.mem_append_right _
                    (List.mem_append_left _ hq))
                · rcases List.mem_append.mp hq with hq | hq
                  · rcases mem_of_multiset_snoc hst q hq with h | h
                    · exact hall q (List.mem_append_right _
                        (List.mem_append_right _ (List.mem_append_left _ h)))
                    · subst h; exact hc
                  · exact hall q (List.mem_append_right _
                      (List.mem_append_right _ (List.mem_append_right _ hq)))
            · intro _
              simp only [QuadTree.stored, ← Multiset.coe_add, hst,
                ← Multiset.coe_singleton]
              abel
            · simp [QuadTree.boundary, hc]
          | false =>
            have hr2 : (ne.insert p).2 = false := by rw [f1, hne]
            have hu2 : (ne.insert p).1 = ne := f6 hne
            cases hsw : (swQuad b).contains p with
            | true =>
              have hr3 : (sw.insert p).2 = true := by rw [g1, hsw]
              have hstep : (QuadTree.node b ps nw ne sw se).insert p =
                  (.node b ps nw ne (sw.insert p).1 se, true) := by
                simp [QuadTree.insert, hc, hlen, hr1, hr2, hr3, hu1, hu2]
              rw [hstep]
              have hst := g5 hsw
              refine ⟨by simp [QuadTree.boundary, hc], rfl,
                ⟨hb1, hb2, by rw [g2, hb3], hb4, w1, w2, g3, w4⟩, ?_, ?_, ?_⟩
              · refine ⟨?_, i1, i2, g4, i4⟩
                intro q hq
                rcases List.mem_append.mp hq with hq | hq
                · exact hall q (List.mem_append_left _ hq)
                · rcases List.mem_append.mp hq with hq | hq
                  · exact hall q (List.mem_append_right _
                      (List.mem_append_left _ hq))
                  · rcases List.mem_append.mp hq with hq | hq
                    · exact hall q (List.mem_append_right _
                        (List.mem_append_right _ (List.mem_append_left _ hq)))
                    · rcases List.mem_append.mp hq with hq | hq
                      · rcases mem_of_multiset_snoc hst q hq with h | h
                        · exact hall q (List.mem_append_right _
                            (List.mem_append_right _
                              (List.mem_append_right _
                                (List.mem_append_left _ h))))
                        · subst h; exact hc
                      · exact hall q (List.mem_append_right _
                          (List.mem_append_right _
                            (List.mem_append_right _
                              (List.mem_append_right _ hq))))
              · intro _
                simp only [QuadTree.stored, ← Multiset.coe_add, hst,
                  ← Multiset.coe_singleton]
                abel
              · simp [QuadTree.boundary, hc]
            | false =>
              have hr3 : (sw.insert p).2 = false := by rw [g1, hsw]
              have hu3 : (sw.insert p).1 = sw := g6 hsw
              cases hse : (seQuad b).contains p with
              | true =>
                have hr4 : (se.insert p).2 = true := by rw [k1, hse]
                have hstep : (QuadTree.node b ps nw ne sw se).insert p =
                    (.node b ps nw ne sw (se.insert p).1, true) := by
                  simp [QuadTree.insert, hc, hlen, hr1, hr2, hr3, hr4,
                    hu1, hu2, hu3]
                rw [hstep]
                have hst := k5 hse
                refine ⟨by simp [QuadTree.boundary, hc], rfl,
                  ⟨hb1, hb2, hb3, by rw [k2, hb4], w1, w2, w3, k3⟩, ?_, ?_, ?_⟩
                · refine ⟨?_, i1, i2, i3, k4⟩
                  intro q hq
                  rcases List.mem_append.mp hq with hq | hq
                  · exact hall q (List.mem_append_left _ hq)
                  · rcases List.mem_append.mp hq with hq | hq
                    · exact hall q (List.mem_append_right _
                        (List.mem_append_left _ hq))
                    · rcases List.mem_append.mp hq with hq | hq
                      · exact hall q (List.mem_append_right _
                          (List.mem_append_right _
                            (List.mem_append_left _ hq)))
                      · rcases List.mem_append.mp hq with hq | hq
                        · exact hall q (List.mem_append_right _
                            (List.mem_append_right _
                              (List.mem_append_right _
                                (List.mem_append_left _ hq))))
                        · rcases mem_of_multiset_snoc hst q hq with h | h
                          · exact hall q (List.mem_append_right _
                              (List.mem_append_right _
                                (List.mem_append_right _
                                  (List.mem_append_right _ h))))
                          · subst h; exact hc
                · intro _
                  simp only [QuadTree.stored, ← Multiset.coe_add, hst,
                    ← Multiset.coe_singleton]
                  abel
                · simp [QuadTree.boundary, hc]
              | false =>
                exact absurd (quadCover hc) (by simp [hnw, hne, hsw, hse])
    · have hc' : b.contains p = false := by simpa using hc
      have hstep : (QuadTree.node b ps nw ne sw se).insert p =
          (.node b ps nw ne sw se, false) := by
        simp [QuadTree.insert, hc']
      rw [hstep]
      exact ⟨by simp [QuadTree.boundary, hc'], rfl,
        ⟨hb1, hb2, hb3, hb4, w1, w2, w3, w4⟩, ⟨hall, i1, i2, i3, i4⟩,
        by simp [QuadTree.boundary, hc'], fun _ => rfl⟩

/-- Every stored particle of an invariant-respecting subtree lies within
its boundary. -/
theorem QuadTree.inv_stored :
    ∀ t : QuadTree, t.inv → ∀ q ∈ t.stored, t.boundary.contains q = true
  | .leaf _ _, hinv => hinv
  | .node _ _ _ _ _ _, hinv => hinv.1

/-- On invariant-respecting trees, `query` returns exactly the stored
particles whose position lies inside the range, in stored order: the
intersection pruning never discards a match. -/
theorem QuadTree.query_eq (range : Boundary) :
    ∀ t : QuadTree, t.inv →
      t.query range = t.stored.filter (fun q => range.contains q) := by
  intro t
  induction t with
  | leaf b ps =>
    intro hinv
    have hinv' : ∀ q ∈ ps, b.contains q = true := hinv
    by_cases hi : b.intersects range = true
    · simp [QuadTree.query, hi, QuadTree.stored]
    · have hi' : b.intersects range = false := by simpa using hi
      simp only [QuadTree.query, hi', Bool.false_eq_true, if_false,
        QuadTree.stored]
      refine (List.filter_eq_nil_iff.mpr ?_).symm
      intro q hq hcont
      have hint := contains_intersects (hinv' q hq) (by simpa using hcont)
      rw [hi'] at hint
      exact Bool.noConfusion hint
  | node b ps nw ne sw se ihnw ihne ihsw ihse =>
    intro hinv
    obtain ⟨hall, i1, i2, i3, i4⟩ := hinv
    by_cases hi : b.intersects range = true
    · simp only [QuadTree.query, hi, if_true, QuadTree.stored,
        List.filter_append]
      rw [ihnw i1, ihne i2, ihsw i3, ihse i4]
    · have hi' : b.intersects range = false := by simpa using hi
      simp only [QuadTree.query, hi', Bool.false_eq_true, if_false,
        QuadTree.stored]
      refine (List.filter_eq_nil_iff.mpr ?_).symm
      intro q hq hcont
      have hint := contains_intersects (hall q hq) (by simpa using hcont)
      rw [hi'] at hint
      exact Bool.noConfusion hint

/-- Folding `insert` over a particle list (as `Engine.render` does)
preserves the invariants and, when every particle lies within the root
boundary, stores exactly the inserted particles. -/
theorem buildTree_facts (b : Boundary) :
    ∀ (ps : List Particle) (t : QuadTree), t.wf → t.inv → t.boundary = b →
      (∀ q ∈ ps, b.contains q = true) →
      ((ps.foldl (fun t p => (t.insert p).1) t).wf ∧
       (ps.foldl (fun t p => (t.insert p).1) t).inv ∧
       (ps.foldl (fun t p => (t.insert p).1) t).boundary = b ∧
       (((ps.foldl (fun t p => (t.insert p).1) t).stored : Multiset Particle) =
         (t.stored : Multiset Particle) + (ps : Multiset Particle))) := by
  intro ps
  induction ps with
  | nil =>
    intro t hwf hinv hb hall
    exact ⟨hwf, hinv, hb, by simp⟩
  | cons a l ih =>
    intro t hwf hinv hb hall
    obtain ⟨m1, m2, m3, m4, m5, m6⟩ := QuadTree.insert_master a t hwf hinv
    have hca : t.boundary.contains a = true := by
      rw [hb]; exact hall a (List.mem_cons_self a l)
    have hrec := ih (t.insert a).1 m3 m4 (by rw [m2, hb])
      (fun q hq => hall q (List.mem_cons_of_mem _ hq))
    obtain ⟨r1, r2, r3, r4⟩ := hrec
    refine ⟨r1, r2, r3, ?_⟩
    rw [List.foldl_cons, r4, m5 hca, ← Multiset.cons_coe,
      ← Multiset.singleton_add, add_assoc]

/-- Replace the directly-held particle list of a node, keeping boundary
and children. -/
def QuadTree.withOwn : QuadTree → List Particle → QuadTree
  | .leaf b _, ps => .leaf b ps
  | .node b _ nw ne sw se, ps => .node b ps nw ne sw se

/-- C1: for every finite set of particles each successfully inserted into
a QuadTree (equivalently, each within the root boundary) and every query
range, `query range` returns — as a set, order irrelevant and without
duplication — exactly the inserted particles whose position lies inside
the range (edges inclusive); in particular a range fully covering the
index's boundary returns the complete inserted set. -/
theorem c1_query_exact (b : Boundary) (ps : List Particle) (range : Boundary)
    (hc : ∀ q ∈ ps, b.contains q = true) :
    ((buildTree b ps).query range).Perm
      (ps.filter (fun q => range.contains q)) ∧
    (range.x ≤ b.x → range.y ≤ b.y → b.x + b.w ≤ range.x + range.w →
     b.y + b.h ≤ range.y + range.h →
      ((buildTree b ps).query range).Perm ps) := by
  obtain ⟨hwf, hinv, hb, hst⟩ := buildTree_facts b ps (.leaf b []) trivial
    (by intro q hq; cases hq) rfl hc
  have hqe := QuadTree.query_eq range (buildTree b ps) hinv
  have hperm : ((buildTree b ps).stored).Perm ps :=
    Multiset.coe_eq_coe.mp (by simpa [QuadTree.stored] using hst)
  have hmain : ((buildTree b ps).query range).Perm
      (ps.filter (fun q => range.contains q)) := by
    rw [hqe]
    exact hperm.filter _
  refine ⟨hmain, ?_⟩
  intro h1 h2 h3 h4
  have hall : ∀ q ∈ ps, range.contains q = true := by
    intro q hqm
    have hcq := hc q hqm
    rw [Boundary.contains_iff] at hcq ⊢
    obtain ⟨a1, a2, a3, a4⟩ := hcq
    exact ⟨by linarith, by linarith, by linarith, by linarith⟩
  have hfe : ps.filter (fun q => range.contains q) = ps :=
    List.filter_eq_self.mpr (fun a ha => hall a ha)
  rw [hfe] at hmain
  exact hmain

/-- A particle literal used by concrete witnesses: identity, position,
and neutral values for the remaining state. -/
def mkP (pid : ℕ) (x y : ℚ) : Particle :=
  ⟨pid, x, y, 0, 0, 1, 1, 1, 1, 1, 1, 0, 0, 0⟩

/-- Concrete particle list exercising subdivision (6 > capacity 4). -/
def c1ps : List Particle :=
  [mkP 0 1 1, mkP 1 9 1, mkP 2 1 9, mkP 3 9 9, mkP 4 2 2, mkP 5 3 7]

/-- Witness for C1 at a concrete index of six particles and a partial
range. -/
theorem c1_query_exact_witness :
    ((buildTree ⟨0, 0, 10, 10⟩ c1ps).query ⟨0, 0, 5, 5⟩).Perm
      (c1ps.filter (fun q => (⟨0, 0, 5, 5⟩ : Boundary).contains q)) :=
  (c1_query_exact ⟨0, 0, 10, 10⟩ c1ps ⟨0, 0, 5, 5⟩ (by norm_num [c1ps, mkP, Boundary.contains])).1

/-- C2: on well-formed trees, `insert` returns `false` exactly when the
particle's position lies outside the node's boundary (edges inclusive);
when it lies inside, the particle is stored — directly when the node
holds fewer than 4 particles, otherwise, after lazy subdivision, in the
first quadrant that accepts it in the fixed order NW, NE, SW, SE — and
`insert` returns `true`. -/
theorem c2_insert_spec (t : QuadTree) (p : Particle) (hwf : t.wf)
    (hinv : t.inv) :
    (((t.insert p).2 = true) ↔ t.boundary.contains p = true) ∧
    (t.boundary.contains p = false → (t.insert p).1 = t) ∧
    (t.boundary.contains p = true →
      ((t.insert p).1.stored : Multiset Particle) =
        (t.stored : Multiset Particle) + {p}) ∧
    (t.boundary.contains p = true → t.own.length < 4 →
      t.insert p = (t.withOwn (t.own ++ [p]), true)) ∧
    (∀ b ps, t = .leaf b ps → t.boundary.contains p = true →
      ¬ ps.length < 4 →
      (t.insert p).1 = .node b ps
        (.leaf (nwQuad b) (if (nwQuad b).contains p then [p] else []))
        (.leaf (neQuad b)
          (if ¬ (nwQuad b).contains p ∧ (neQuad b).contains p then [p]
           else []))
        (.leaf (swQuad b)
          (if ¬ (nwQuad b).contains p ∧ ¬ (neQuad b).contains p ∧
              (swQuad b).contains p then [p] else []))
        (.leaf (seQuad b)
          (if ¬ (nwQuad b).contains p ∧ ¬ (neQuad b).contains p ∧
              ¬ (swQuad b).contains p ∧ (seQuad b).contains p then [p]
           else []))) := by
  obtain ⟨m1, m2, m3, m4, m5, m6⟩ := QuadTree.insert_master p t hwf hinv
  refine ⟨by rw [m1], m6, m5, ?_, ?_⟩
  · intro hc hlen
    cases t with
    | leaf b ps =>
      have hc' : b.contains p = true := hc
      have hlen' : ps.length < 4 := hlen
      have hstep : (QuadTree.leaf b ps).insert p =
          (.leaf b (ps ++ [p]), true) := by
        simp [QuadTree.insert, hc', hlen']
      simpa [QuadTree.withOwn, QuadTree.own] using hstep
    | node b ps nw ne sw se =>
      have hc' : b.contains p = true := hc
      have hlen' : ps.length < 4 := hlen
      have hstep : (QuadTree.node b ps nw ne sw se).insert p =
          (.node b (ps ++ [p]) nw ne sw se, true) := by
        simp [QuadTree.insert, hc', hlen']
      simpa [QuadTree.withOwn, QuadTree.own] using hstep
  · rintro b ps rfl hc hlen
    have hc' : b.contains p = true := hc
    cases hnw : (nwQuad b).contains p with
    | true =>
      simp [QuadTree.insert, QuadTree.leafInsert, hc', hlen, hnw]
    | false =>
      cases hne : (neQuad b).contains p with
      | true =>
        simp [QuadTree.insert, QuadTree.leafInsert, hc', hlen, hnw, hne]
      | false =>
        cases hsw : (swQuad b).contains p with
        | true =>
          simp [QuadTree.insert, QuadTree.leafInsert, hc', hlen, hnw, hne,
            hsw]
        | false =>
          cases hse : (seQuad b).contains p with
          | true =>
            simp [QuadTree.insert, QuadTree.leafInsert, hc', hlen, hnw, hne,
              hsw, hse]
          | false =>
            exact absurd (quadCover hc') (by simp [hnw, hne, hsw, hse])

/-- Witness for C2: a full leaf over the unit-free square accepting a
particle on the shared vertical edge (tie resolved towards NW). -/
theorem c2_insert_spec_witness :
    (((QuadTree.leaf ⟨0, 0, 10, 10⟩
        [mkP 0 1 1, mkP 1 9 1, mkP 2 1 9, mkP 3 9 9]).insert
          (mkP 4 5 3)).2 = true) ↔
      (⟨0, 0, 10, 10⟩ : Boundary).contains (mkP 4 5 3) = true :=
  (c2_insert_spec (QuadTree.leaf ⟨0, 0, 10, 10⟩
      [mkP 0 1 1, mkP 1 9 1, mkP 2 1 9, mkP 3 9 9]) (mkP 4 5 3) trivial
    (show ∀ q ∈ [mkP 0 1 1, mkP 1 9 1, mkP 2 1 9, mkP 3 9 9],
        (⟨0, 0, 10, 10⟩ : Boundary).contains q = true by norm_num [mkP, Boundary.contains])).1

/-! ### Field-preservation facts for the per-particle steps -/

@[simp]
theorem handleOutMode_keeps (move : MoveCfg) (w h : ℚ) (p : Particle) :
    (handleOutMode move w h p).radius = p.radius ∧
    (handleOutMode move w h p).opacity = p.opacity ∧
    (handleOutMode move w h p).initialRadius = p.initialRadius ∧
    (handleOutMode move w h p).initialOpacity = p.initialOpacity ∧
    (handleOutMode move w h p).opacityDirection = p.opacityDirection ∧
    (handleOutMode move w h p).sizeDirection = p.sizeDirection ∧
    (handleOutMode move w h p).swayPhase = p.swayPhase ∧
    (handleOutMode move w h p).rotation = p.rotation ∧
    (handleOutMode move w h p).pid = p.pid := by
  simp only [handleOutMode]
  split_ifs <;> simp

@[simp]
theorem handleSway_keeps (cfg : Config) (o : Oracle) (delta : ℚ)
    (p : Particle) :
    (handleSway cfg o delta p).y = p.y ∧
    (handleSway cfg o delta p).vx = p.vx ∧
    (handleSway cfg o delta p).vy = p.vy ∧
    (handleSway cfg o delta p).radius = p.radius ∧
    (handleSway cfg o delta p).opacity = p.opacity ∧
    (handleSway cfg o delta p).initialRadius = p.initialRadius ∧
    (handleSway cfg o delta p).initialOpacity = p.initialOpacity ∧
    (handleSway cfg o delta p).opacityDirection = p.opacityDirection ∧
    (handleSway cfg o delta p).sizeDirection = p.sizeDirection ∧
    (handleSway cfg o delta p).rotation = p.rotation ∧
    (handleSway cfg o delta p).pid = p.pid := by
  simp only [handleSway]
  split_ifs <;> simp

@[simp]
theorem handleOpacityAnimation_keeps (cfg : Config) (delta : ℚ)
    (p : Particle) :
    (handleOpacityAnimation cfg delta p).x = p.x ∧
    (handleOpacityAnimation cfg delta p).y = p.y ∧
    (handleOpacityAnimation cfg delta p).vx = p.vx ∧
    (handleOpacityAnimation cfg delta p).vy = p.vy ∧
    (handleOpacityAnimation cfg delta p).radius = p.radius ∧
    (handleOpacityAnimation cfg delta p).initialRadius = p.initialRadius ∧
    (handleOpacityAnimation cfg delta p).sizeDirection = p.sizeDirection ∧
    (handleOpacityAnimation cfg delta p).swayPhase = p.swayPhase ∧
    (handleOpacityAnimation cfg delta p).rotation = p.rotation ∧
    (handleOpacityAnimation cfg delta p).pid = p.pid := by
  simp only [handleOpacityAnimation]
  split_ifs <;> simp

@[simp]
theorem handleSizeAnimation_keeps (cfg : Config) (delta : ℚ) (p : Particle) :
    (handleSizeAnimation cfg delta p).x = p.x ∧
    (handleSizeAnimation cfg delta p).y = p.y ∧
    (handleSizeAnimation cfg delta p).vx = p.vx ∧
    (handleSizeAnimation cfg delta p).vy = p.vy ∧
    (handleSizeAnimation cfg delta p).opacity = p.opacity ∧
    (handleSizeAnimation cfg delta p).initialOpacity = p.initialOpacity ∧
    (handleSizeAnimation cfg delta p).opacityDirection = p.opacityDirection ∧
    (handleSizeAnimation cfg delta p).swayPhase = p.swayPhase ∧
    (handleSizeAnimation cfg delta p).rotation = p.rotation ∧
    (handleSizeAnimation cfg delta p).pid = p.pid := by
  simp only [handleSizeAnimation]
  split_ifs <;> simp

@[simp]
theorem handleRotationAnimation_keeps (cfg : Config) (o : Oracle)
    (delta : ℚ) (p : Particle) :
    (handleRotationAnimation cfg o delta p).x = p.x ∧
    (handleRotationAnimation cfg o delta p).y = p.y ∧
    (handleRotationAnimation cfg o delta p).vx = p.vx ∧
    (handleRotationAnimation cfg o delta p).vy = p.vy ∧
    (handleRotationAnimation cfg o delta p).radius = p.radius ∧
    (handleRotationAnimation cfg o delta p).opacity = p.opacity ∧
    (handleRotationAnimation cfg o delta p).initialRadius = p.initialRadius ∧
    (handleRotationAnimation cfg o delta p).initialOpacity =
      p.initialOpacity ∧
    (handleRotationAnimation cfg o delta p).pid = p.pid := by
  simp only [handleRotationAnimation]
  split_ifs <;> simp

/-! ### C5 — population sizing -/

/-- C5 counterexample: the 2000 cap lives only in the density branch, so a
configuration with density disabled and fixed value 5000 initializes
5000 particles, contradicting "no configuration yields more than 2000
particles after initialization". -/
theorem c5_counterexample :
    Engine.calculateParticleCount ⟨5000, ⟨false, 800⟩⟩ 100 100 = 5000 ∧
    Engine.initCount ⟨5000, ⟨false, 800⟩⟩ 100 100 = 5000 ∧
    ¬ Engine.initCount ⟨5000, ⟨false, 800⟩⟩ 100 100 ≤ 2000 := by
  refine ⟨?_, ?_, ?_⟩ <;>
    norm_num [Engine.calculateParticleCount, Engine.initCount]

/-- C5 (amended): with density disabled the count is the configured fixed
value, uncapped; with density enabled the count is the floored density
formula capped at 2000 — hence at most 2000, and exactly 2000 whenever
the raw floored result reaches 2000. -/
theorem c5_count_amended (number : NumberCfg) (w h : ℚ) :
    (number.density.enable = false →
      Engine.calculateParticleCount number w h = number.value) ∧
    (number.density.enable = true →
      Engine.calculateParticleCount number w h =
        ((min (⌊w * h / (max number.density.area (1 / 1000) * 1000) *
          number.value⌋) 2000 : ℤ) : ℚ) ∧
      Engine.calculateParticleCount number w h ≤ 2000 ∧
      (2000 ≤ ⌊w * h / (max number.density.area (1 / 1000) * 1000) *
          number.value⌋ →
        Engine.calculateParticleCount number w h = 2000)) := by
  constructor
  · intro hd
    simp [Engine.calculateParticleCount, hd]
  · intro hd
    refine ⟨by simp [Engine.calculateParticleCount, hd], ?_, ?_⟩
    · simp only [Engine.calculateParticleCount, hd, if_true]
      have : (min (⌊w * h / (max number.density.area (1 / 1000) * 1000) *
          number.value⌋) 2000 : ℤ) ≤ 2000 := min_le_right _ _
      exact_mod_cast this
    · intro hraw
      simp only [Engine.calculateParticleCount, hd, if_true]
      rw [min_eq_right hraw]
      norm_num

/-- Witness for C5 (amended) at a density-enabled configuration whose raw
count 10000 collapses to the cap. -/
theorem c5_count_amended_witness :
    Engine.calculateParticleCount ⟨10, ⟨true, 1⟩⟩ 1000 1000 ≤ 2000 :=
  ((c5_count_amended ⟨10, ⟨true, 1⟩⟩ 1000 1000).2 rfl).2.1

/-! ### C7 / C8 — boundary policy -/

/-- C7: under boundary mode bounce, whenever a particle's edge (position
offset by radius) has reached or passed a canvas edge while the matching
velocity component points toward that edge, exactly that component's
sign is flipped and the position is corrected by the exact overlap so
the particle's edge is the reflection point; otherwise that axis is
untouched; and through a full `Particle.update` a particle whose
integrated position has crossed the left wall while moving leftward ends
the tick with `vx` negated and `x = radius + (the exact prior overlap)`. -/
theorem c7_bounce_spec (cfg : Config) (o : Oracle) (w h delta : ℚ)
    (p : Particle) (hm : cfg.move.out_mode = "bounce") :
    ((p.x - p.radius ≤ 0 ∧ p.vx < 0 →
        (handleOutMode cfg.move w h p).vx = -p.vx ∧
        (handleOutMode cfg.move w h p).x = p.radius + (p.radius - p.x)) ∧
     (¬ (p.x - p.radius ≤ 0 ∧ p.vx < 0) →
      p.x + p.radius ≥ w ∧ p.vx > 0 →
        (handleOutMode cfg.move w h p).vx = -p.vx ∧
        (handleOutMode cfg.move w h p).x =
          w - p.radius - (p.x + p.radius - w)) ∧
     (¬ (p.x - p.radius ≤ 0 ∧ p.vx < 0) →
      ¬ (p.x + p.radius ≥ w ∧ p.vx > 0) →
        (handleOutMode cfg.move w h p).vx = p.vx ∧
        (handleOutMode cfg.move w h p).x = p.x) ∧
     (p.y - p.radius ≤ 0 ∧ p.vy < 0 →
        (handleOutMode cfg.move w h p).vy = -p.vy ∧
        (handleOutMode cfg.move w h p).y = p.radius + (p.radius - p.y)) ∧
     (¬ (p.y - p.radius ≤ 0 ∧ p.vy < 0) →
      p.y + p.radius ≥ h ∧ p.vy > 0 →
        (handleOutMode cfg.move w h p).vy = -p.vy ∧
        (handleOutMode cfg.move w h p).y =
          h - p.radius - (p.y + p.radius - h)) ∧
     (¬ (p.y - p.radius ≤ 0 ∧ p.vy < 0) →
      ¬ (p.y + p.radius ≥ h ∧ p.vy > 0) →
        (handleOutMode cfg.move w h p).vy = p.vy ∧
        (handleOutMode cfg.move w h p).y = p.y)) ∧
    (cfg.sway.enable = false →
     p.x + p.vx * delta - p.radius ≤ 0 → p.vx < 0 →
      (Particle.update cfg o w h delta p).vx = -p.vx ∧
      (Particle.update cfg o w h delta p).x =
        p.radius + (p.radius - (p.x + p.vx * delta))) := by
  have key : ∀ q : Particle,
      ((q.x - q.radius ≤ 0 ∧ q.vx < 0 →
          (handleOutMode cfg.move w h q).vx = -q.vx ∧
          (handleOutMode cfg.move w h q).x = q.radius + (q.radius - q.x)) ∧
       (¬ (q.x - q.radius ≤ 0 ∧ q.vx < 0) →
        q.x + q.radius ≥ w ∧ q.vx > 0 →
          (handleOutMode cfg.move w h q).vx = -q.vx ∧
          (handleOutMode cfg.move w h q).x =
            w - q.radius - (q.x + q.radius - w)) ∧
       (¬ (q.x - q.radius ≤ 0 ∧ q.vx < 0) →
        ¬ (q.x + q.radius ≥ w ∧ q.vx > 0) →
          (handleOutMode cfg.move w h q).vx = q.vx ∧
          (handleOutMode cfg.move w h q).x = q.x) ∧
       (q.y - q.radius ≤ 0 ∧ q.vy < 0 →
          (handleOutMode cfg.move w h q).vy = -q.vy ∧
          (handleOutMode cfg.move w h q).y = q.radius + (q.radius - q.y)) ∧
       (¬ (q.y - q.radius ≤ 0 ∧ q.vy < 0) →
        q.y + q.radius ≥ h ∧ q.vy > 0 →
          (handleOutMode cfg.move w h q).vy = -q.vy ∧
          (handleOutMode cfg.move w h q).y =
            h - q.radius - (q.y + q.radius - h)) ∧
       (¬ (q.y - q.radius ≤ 0 ∧ q.vy < 0) →
        ¬ (q.y + q.radius ≥ h ∧ q.vy > 0) →
          (handleOutMode cfg.move w h q).vy = q.vy ∧
          (handleOutMode cfg.move w h q).y = q.y)) := by
    intro q
    simp only [handleOutMode, hm, if_true]
    split_ifs <;>
      refine ⟨?_, ?_, ?_, ?_, ?_, ?_⟩ <;> intros <;> simp_all
  refine ⟨key p, ?_⟩
  intro hsw hx hvx
  set pInt : Particle :=
    { p with x := p.x + p.vx * delta, y := p.y + p.vy * delta } with hpInt
  have hupd : (Particle.update cfg o w h delta p).vx =
      (handleOutMode cfg.move w h pInt).vx ∧
      (Particle.update cfg o w h delta p).x =
      (handleOutMode cfg.move w h pInt).x := by
    simp only [Particle.update, hsw, Bool.false_eq_true, if_false, ← hpInt]
    split_ifs <;> simp
  have hb := (key pInt).1 ⟨by simpa [hpInt] using hx, by simpa [hpInt] using hvx⟩
  rw [hupd.1, hupd.2, hb.1, hb.2]
  simp [hpInt]

/-- Concrete configuration mirroring the `default` preset of
`lib/defaults.ts`, used as the base of witness configurations. -/
def baseCfg : Config :=
  { number := ⟨50, ⟨true, 800⟩⟩
    opacity := ⟨1 / 2, false, ⟨false, 1, 1 / 10, false⟩⟩
    size := ⟨3, true, ⟨false, 4, 1 / 10, false⟩⟩
    rotate := ⟨true, 45, false, ⟨true, 2, "counter-clockwise", false⟩⟩
    move := ⟨true, 2, "out", ⟨false, 3000, 3000⟩⟩
    sway := ⟨true, 10, 1 / 20, true⟩
    interactivity := ⟨"canvas", ⟨⟨true, "repulse"⟩, ⟨true, "push"⟩⟩,
      ⟨⟨100⟩, ⟨200, 80, 2 / 5, none⟩, ⟨200, 2 / 5⟩, ⟨4⟩, ⟨2⟩⟩⟩ }

/-- A zero-valued oracle, usable wherever a witness never consults the
transcendental primitives (or consults them only at 0, where the real
`Math.sqrt` also returns 0). -/
def oz : Oracle := ⟨fun _ => 0, fun _ => 0, fun _ => 0, fun _ _ => 0, 0⟩

/-- Bounce-mode, sway-free configuration for the C7 witness. -/
def c7cfg : Config :=
  { baseCfg with move := { baseCfg.move with out_mode := "bounce" },
                 sway := { baseCfg.sway with enable := false } }

/-- The C7 witness particle: radius 5 at `x = radius - 1`, moving left. -/
def c7p : Particle := { mkP 0 4 50 with vx := -2, radius := 5 }

/-- Witness for C7: radius 5, starting at `x = radius - 1 = 4`, moving
left with `vx = -2`, zero delta so the policy sees `x = radius - 1`;
the tick flips `vx` and lands at `x = radius + 1`. -/
theorem c7_bounce_spec_witness :
    (Particle.update c7cfg oz 100 100 0 (c7p)).vx = 2 ∧
    (Particle.update c7cfg oz 100 100 0 (c7p)).x = 6 := by
  have h := (c7_bounce_spec c7cfg oz 100 100 0 c7p rfl).2 rfl
    (by norm_num [c7p, mkP]) (by norm_num [c7p, mkP])
  have hvx : (c7p).vx = -2 := rfl
  constructor
  · rw [h.1, hvx]; norm_num
  · rw [h.2]; norm_num [c7p, mkP]

/-- C8: under the wrap branch (any `out_mode` other than `bounce`), a
particle whose near edge (inclusive of radius) has fully passed a canvas
edge is translated by exactly `dimension + 2 * radius` toward the
opposite side, the velocity is untouched, and nothing happens otherwise;
through a full `Particle.update`, a particle whose integrated position
has fully exited the right edge is relocated by exactly
`-(width + 2 * radius)` in that tick. -/
theorem c8_wrap_spec (cfg : Config) (o : Oracle) (w h delta : ℚ)
    (p : Particle) (hm : cfg.move.out_mode = "out") :
    ((p.x + p.radius < 0 →
        (handleOutMode cfg.move w h p).x = p.x + (w + p.radius * 2)) ∧
     (¬ p.x + p.radius < 0 → p.x - p.radius > w →
        (handleOutMode cfg.move w h p).x = p.x - (w + p.radius * 2)) ∧
     (¬ p.x + p.radius < 0 → ¬ p.x - p.radius > w →
        (handleOutMode cfg.move w h p).x = p.x) ∧
     ((handleOutMode cfg.move w h p).vx = p.vx ∧
      (handleOutMode cfg.move w h p).vy = p.vy) ∧
     (p.y + p.radius < 0 →
        (handleOutMode cfg.move w h p).y = p.y + (h + p.radius * 2)) ∧
     (¬ p.y + p.radius < 0 → p.y - p.radius > h →
        (handleOutMode cfg.move w h p).y = p.y - (h + p.radius * 2)) ∧
     (¬ p.y + p.radius < 0 → ¬ p.y - p.radius > h →
        (handleOutMode cfg.move w h p).y = p.y)) ∧
    (cfg.sway.enable = false → 0 ≤ p.radius → 0 ≤ w →
     p.x + p.vx * delta - p.radius > w →
      (Particle.update cfg o w h delta p).x =
        (p.x + p.vx * delta) - (w + p.radius * 2)) := by
  have key : ∀ q : Particle,
      ((q.x + q.radius < 0 →
          (handleOutMode cfg.move w h q).x = q.x + (w + q.radius * 2)) ∧
       (¬ q.x + q.radius < 0 → q.x - q.radius > w →
          (handleOutMode cfg.move w h q).x = q.x - (w + q.radius * 2)) ∧
       (¬ q.x + q.radius < 0 → ¬ q.x - q.radius > w →
          (handleOutMode cfg.move w h q).x = q.x) ∧
       ((handleOutMode cfg.move w h q).vx = q.vx ∧
        (handleOutMode cfg.move w h q).vy = q.vy) ∧
       (q.y + q.radius < 0 →
          (handleOutMode cfg.move w h q).y = q.y + (h + q.radius * 2)) ∧
       (¬ q.y + q.radius < 0 → q.y - q.radius > h →
          (handleOutMode cfg.move w h q).y = q.y - (h + q.radius * 2)) ∧
       (¬ q.y + q.radius < 0 → ¬ q.y - q.radius > h →
          (handleOutMode cfg.move w h q).y = q.y)) := by
    intro q
    simp only [handleOutMode, hm]
    split_ifs <;>
      refine ⟨?_, ?_, ?_, ?_, ?_, ?_, ?_⟩ <;> intros <;> simp_all
  refine ⟨key p, ?_⟩
  intro hsw hr hw hx
  set pInt : Particle :=
    { p with x := p.x + p.vx * delta, y := p.y + p.vy * delta } with hpInt
  have hupd : (Particle.update cfg o w h delta p).x =
      (handleOutMode cfg.move w h pInt).x := by
    simp only [Particle.update, hsw, Bool.false_eq_true, if_false, ← hpInt]
    split_ifs <;> simp
  have hb := (key pInt).2.1 (by simp only [hpInt]; intro hcon; linarith)
    (by simpa [hpInt] using hx)
  rw [hupd, hb]

/-- Wrap-mode, sway-free configuration for the C8 witness. -/
def c8cfg : Config := { baseCfg with sway := { baseCfg.sway with enable := false } }

/-- The C8 witness particle: radius 2 at `x = width + radius + 1 = 103`,
moving right. -/
def c8p : Particle := { mkP 0 103 50 with vx := 1, radius := 2 }

/-- Witness for C8: with width 100, the tick relocates the particle from
103 to `103 - (100 + 2 * 2) = -1`. -/
theorem c8_wrap_spec_witness :
    (Particle.update c8cfg oz 100 100 0 c8p).x = -1 := by
  have h := (c8_wrap_spec c8cfg oz 100 100 0 c8p rfl).2 rfl
    (by norm_num [c8p, mkP]) (by norm_num) (by norm_num [c8p, mkP])
  rw [h]
  norm_num [c8p, mkP]

/-! ### C6 — attraction -/

/-- Closed form of the neighbour fold inside `applyAttraction`: the
accumulated velocity is the initial one minus the sum of the per-
neighbour contributions (zero for the particle itself), and every other
field is untouched. -/
theorem attract_fold_fields (rotX rotY : ℚ) (ns : List Particle) :
    ∀ acc : Particle,
      ((ns.foldl (attractStep rotX rotY) acc).pid = acc.pid ∧
       (ns.foldl (attractStep rotX rotY) acc).x = acc.x ∧
       (ns.foldl (attractStep rotX rotY) acc).y = acc.y ∧
       (ns.foldl (attractStep rotX rotY) acc).vx = acc.vx -
         (ns.map (fun p2 =>
           if acc.pid = p2.pid then 0 else (acc.x - p2.x) / rotX)).sum ∧
       (ns.foldl (attractStep rotX rotY) acc).vy = acc.vy -
         (ns.map (fun p2 =>
           if acc.pid = p2.pid then 0 else (acc.y - p2.y) / rotY)).sum ∧
       (ns.foldl (attractStep rotX rotY) acc).radius = acc.radius ∧
       (ns.foldl (attractStep rotX rotY) acc).opacity = acc.opacity ∧
       (ns.foldl (attractStep rotX rotY) acc).initialRadius =
         acc.initialRadius ∧
       (ns.foldl (attractStep rotX rotY) acc).initialOpacity =
         acc.initialOpacity) := by
  induction ns with
  | nil => intro acc; simp
  | cons n ns ih =>
    intro acc
    by_cases hpid : acc.pid = n.pid
    · have hstep : List.foldl (attractStep rotX rotY) acc (n :: ns) =
          List.foldl (attractStep rotX rotY) acc ns := by
        simp [List.foldl_cons, attractStep, hpid]
      rw [hstep]
      obtain ⟨a1, a2, a3, a4, a5, a6, a7, a8, a9⟩ := ih acc
      exact ⟨a1, a2, a3, by simp [a4, hpid], by simp [a5, hpid], a6, a7, a8,
        a9⟩
    · have hstep : List.foldl (attractStep rotX rotY) acc (n :: ns) =
          List.foldl (attractStep rotX rotY)
            { acc with vx := acc.vx - (acc.x - n.x) / rotX,
                       vy := acc.vy - (acc.y - n.y) / rotY } ns := by
        simp [List.foldl_cons, attractStep, hpid]
      rw [hstep]
      obtain ⟨a1, a2, a3, a4, a5, a6, a7, a8, a9⟩ :=
        ih { acc with vx := acc.vx - (acc.x - n.x) / rotX,
                      vy := acc.vy - (acc.y - n.y) / rotY }
      refine ⟨a1, a2, a3, ?_, ?_, a6, a7, a8, a9⟩
      · rw [a4]; simp only [hpid]; simp [hpid]; ring
      · rw [a5]; simp only [hpid]; simp [hpid]; ring

/-- Summing only over genuine neighbours (`p2 ≠ p1` by object identity)
agrees with the if-guarded sum over the whole query result. -/
theorem sum_filter_ne (p1 : Particle) (f : Particle → ℚ) :
    ∀ ns : List Particle,
      ((ns.filter (fun p2 => p1.pid != p2.pid)).map f).sum =
        (ns.map (fun p2 => if p1.pid = p2.pid then 0 else f p2)).sum := by
  intro ns
  induction ns with
  | nil => simp
  | cons n ns ih =>
    rcases eq_or_ne p1.pid n.pid with hpid | hpid
    · have hb : (p1.pid != n.pid) = false := by simp [hpid]
      simp only [List.filter_cons, hb, Bool.false_eq_true, if_false,
        List.map_cons, List.sum_cons]
      rw [if_pos hpid, zero_add, ih]
    · have hb : (p1.pid != n.pid) = true := by simp [hpid]
      simp only [List.filter_cons, hb, if_true, List.map_cons,
        List.sum_cons]
      rw [if_neg hpid, ih]

/-- C6: `applyAttraction` is the identity when attraction is disabled;
when enabled it maps each particle independently, and the per-particle
step leaves position and visual state untouched while decrementing the
velocity by exactly `(dx / (rotateX * 1000), dy / (rotateY * 1000))`
summed over the spatial-index query of the square of half-width 200
centered on the particle, skipping only the particle itself. -/
theorem c6_attract_spec (cfg : Config) (qtree : QuadTree)
    (ps : List Particle) :
    (cfg.move.attract.enable = false →
      applyAttraction cfg qtree ps = ps) ∧
    (cfg.move.attract.enable = true →
      applyAttraction cfg qtree ps =
        ps.map (attractOne cfg.move.attract qtree)) ∧
    (∀ p1 : Particle,
      (attractOne cfg.move.attract qtree p1).pid = p1.pid ∧
      (attractOne cfg.move.attract qtree p1).x = p1.x ∧
      (attractOne cfg.move.attract qtree p1).y = p1.y ∧
      (attractOne cfg.move.attract qtree p1).radius = p1.radius ∧
      (attractOne cfg.move.attract qtree p1).opacity = p1.opacity ∧
      (attractOne cfg.move.attract qtree p1).vx = p1.vx -
        (((qtree.query ⟨p1.x - 200, p1.y - 200, 400, 400⟩).filter
            (fun p2 => p1.pid != p2.pid)).map
          (fun p2 => (p1.x - p2.x) / (cfg.move.attract.rotateX * 1000))).sum ∧
      (attractOne cfg.move.attract qtree p1).vy = p1.vy -
        (((qtree.query ⟨p1.x - 200, p1.y - 200, 400, 400⟩).filter
            (fun p2 => p1.pid != p2.pid)).map
          (fun p2 =>
            (p1.y - p2.y) / (cfg.move.attract.rotateY * 1000))).sum) := by
  refine ⟨?_, ?_, ?_⟩
  · intro hd; simp [applyAttraction, hd]
  · intro hd; simp [applyAttraction, hd]
  · intro p1
    have hrange : (⟨p1.x - 200, p1.y - 200, 200 * 2, 200 * 2⟩ : Boundary) =
        ⟨p1.x - 200, p1.y - 200, 400, 400⟩ := by norm_num
    have hone : attractOne cfg.move.attract qtree p1 =
        ((qtree.query ⟨p1.x - 200, p1.y - 200, 400, 400⟩).foldl
          (attractStep (cfg.move.attract.rotateX * 1000)
            (cfg.move.attract.rotateY * 1000)) p1) := by
      simp only [attractOne, hrange]
    obtain ⟨a1, a2, a3, a4, a5, a6, a7, a8, a9⟩ :=
      attract_fold_fields (cfg.move.attract.rotateX * 1000)
        (cfg.move.attract.rotateY * 1000)
        (qtree.query ⟨p1.x - 200, p1.y - 200, 400, 400⟩) p1
    rw [hone]
    exact ⟨a1, a2, a3, a6, a7,
      by rw [a4, sum_filter_ne], by rw [a5, sum_filter_ne]⟩

/-- Witness for C6: with the default preset (attraction disabled) one
physics pass leaves the particle list unchanged. -/
theorem c6_attract_spec_witness :
    applyAttraction baseCfg (QuadTree.leaf ⟨0, 0, 100, 100⟩ [mkP 0 5 5])
      [mkP 0 5 5] = [mkP 0 5 5] :=
  (c6_attract_spec baseCfg (QuadTree.leaf ⟨0, 0, 100, 100⟩ [mkP 0 5 5])
    [mkP 0 5 5]).1 rfl

/-! ### C4 — unconditional bubble reset -/

/-- The boundary policy keeps radius/opacity synchronized with their
cached initial values. -/
theorem handleOutMode_sync (move : MoveCfg) (w h : ℚ) (q : Particle)
    (hs : q.radius = q.initialRadius ∧ q.opacity = q.initialOpacity) :
    (handleOutMode move w h q).radius =
      (handleOutMode move w h q).initialRadius ∧
    (handleOutMode move w h q).opacity =
      (handleOutMode move w h q).initialOpacity := by
  obtain ⟨k1, k2, k3, k4, -⟩ := handleOutMode_keeps move w h q
  exact ⟨by rw [k1, k3]; exact hs.1, by rw [k2, k4]; exact hs.2⟩

/-- Sway keeps radius/opacity synchronized. -/
theorem handleSway_sync (cfg : Config) (o : Oracle) (delta : ℚ)
    (q : Particle)
    (hs : q.radius = q.initialRadius ∧ q.opacity = q.initialOpacity) :
    (handleSway cfg o delta q).radius =
      (handleSway cfg o delta q).initialRadius ∧
    (handleSway cfg o delta q).opacity =
      (handleSway cfg o delta q).initialOpacity := by
  obtain ⟨-, -, -, j4, j5, j6, j7, -⟩ := handleSway_keeps cfg o delta q
  exact ⟨by rw [j4, j6]; exact hs.1, by rw [j5, j7]; exact hs.2⟩

/-- The opacity machine re-caches its result, so it keeps the "current
equals cached initial" relation in both fields it touches. -/
theorem handleOpacityAnimation_sync (cfg : Config) (delta : ℚ)
    (q : Particle)
    (hs : q.radius = q.initialRadius ∧ q.opacity = q.initialOpacity) :
    (handleOpacityAnimation cfg delta q).radius =
      (handleOpacityAnimation cfg delta q).initialRadius ∧
    (handleOpacityAnimation cfg delta q).opacity =
      (handleOpacityAnimation cfg delta q).initialOpacity := by
  by_cases he : cfg.opacity.anim.enable = true
  · constructor
    · simpa using hs.1
    · simp only [handleOpacityAnimation, he, if_true]
  · have he' : cfg.opacity.anim.enable = false := by simpa using he
    simp only [handleOpacityAnimation, he', Bool.false_eq_true, if_false]
    exact hs

/-- The size machine re-caches its result likewise. -/
theorem handleSizeAnimation_sync (cfg : Config) (delta : ℚ) (q : Particle)
    (hs : q.radius = q.initialRadius ∧ q.opacity = q.initialOpacity) :
    (handleSizeAnimation cfg delta q).radius =
      (handleSizeAnimation cfg delta q).initialRadius ∧
    (handleSizeAnimation cfg delta q).opacity =
      (handleSizeAnimation cfg delta q).initialOpacity := by
  by_cases he : cfg.size.anim.enable = true
  · constructor
    · simp only [handleSizeAnimation, he, if_true]
    · simpa using hs.2
  · have he' : cfg.size.anim.enable = false := by simpa using he
    simp only [handleSizeAnimation, he', Bool.false_eq_true, if_false]
    exact hs

/-- Rotation touches neither radius nor opacity. -/
theorem handleRotationAnimation_sync (cfg : Config) (o : Oracle)
    (delta : ℚ) (q : Particle)
    (hs : q.radius = q.initialRadius ∧ q.opacity = q.initialOpacity) :
    (handleRotationAnimation cfg o delta q).radius =
      (handleRotationAnimation cfg o delta q).initialRadius ∧
    (handleRotationAnimation cfg o delta q).opacity =
      (handleRotationAnimation cfg o delta q).initialOpacity := by
  obtain ⟨-, -, -, -, m5, m6, m7, m8, -⟩ :=
    handleRotationAnimation_keeps cfg o delta q
  exact ⟨by rw [m5, m7]; exact hs.1, by rw [m6, m8]; exact hs.2⟩

/-- A full `Particle.update` preserves "radius and opacity equal their
cached initial values": every machine either leaves the pairs alone or
re-synchronizes them. -/
theorem update_sync (cfg : Config) (o : Oracle) (w h delta : ℚ)
    (p : Particle) (hr : p.radius = p.initialRadius)
    (ho : p.opacity = p.initialOpacity) :
    (Particle.update cfg o w h delta p).radius =
      (Particle.update cfg o w h delta p).initialRadius ∧
    (Particle.update cfg o w h delta p).opacity =
      (Particle.update cfg o w h delta p).initialOpacity := by
  simp only [Particle.update]
  split_ifs <;>
    (repeat
      first
      | exact ⟨hr, ho⟩
      | apply handleRotationAnimation_sync
      | apply handleSizeAnimation_sync
      | apply handleOpacityAnimation_sync
      | apply handleSway_sync
      | apply handleOutMode_sync)

/-- C4: with hover mode bubble, the interaction step begins by resetting
every particle's radius and opacity to the cached initial values, even
when the pointer is inactive or hover is disabled (in which case it does
nothing else); consequently with hover disabled every particle ends any
full tick with radius and opacity equal to its cached initial values. -/
theorem c4_bubble_reset (cfg : Config) (o : Oracle) (qtree : QuadTree)
    (mouse : Mouse) (ps : List Particle)
    (hmode : cfg.interactivity.events.onhover.mode = "bubble") :
    (mouse.active = false ∨ cfg.interactivity.events.onhover.enable = false →
      applyInteractions cfg o qtree mouse ps = ps.map bubbleReset) ∧
    (cfg.interactivity.events.onhover.enable = false →
      ∀ (w h delta : ℚ) (ps0 : List Particle),
        ∀ q ∈ Engine.render cfg o mouse w h delta ps0,
          q.radius = q.initialRadius ∧ q.opacity = q.initialOpacity) := by
  constructor
  · intro hoff
    simp only [applyInteractions, hmode]
    rw [if_pos hoff]
    simp
  · intro hdis w h delta ps0 q hq
    simp only [Engine.render] at hq
    rw [List.mem_map] at hq
    obtain ⟨r, hr, rfl⟩ := hq
    have hint : applyInteractions cfg o
        (buildTree ⟨0, 0, w, h⟩ ps0) mouse
        (applyAttraction cfg (buildTree ⟨0, 0, w, h⟩ ps0) ps0) =
        (applyAttraction cfg (buildTree ⟨0, 0, w, h⟩ ps0) ps0).map
          bubbleReset := by
      simp only [applyInteractions, hmode]
      rw [if_pos (Or.inr hdis)]
      simp
    rw [hint, List.mem_map] at hr
    obtain ⟨r0, hr0, rfl⟩ := hr
    exact update_sync cfg o w h delta (bubbleReset r0) rfl rfl

/-- Bubble-mode, hover-disabled configuration for the C4 witness. -/
def c4cfg : Config :=
  { baseCfg with interactivity :=
      { baseCfg.interactivity with events :=
          { baseCfg.interactivity.events with
              onhover := ⟨false, "bubble"⟩ } } }

/-- The C4 witness particle: its live radius and opacity have drifted
away from the cached initial values. -/
def c4p : Particle :=
  { mkP 0 5 5 with radius := 7, initialRadius := 3,
                   opacity := 1 / 4, initialOpacity := 3 / 4 }

/-- Witness for C4: with the pointer inactive the interaction step is
exactly the reset map. -/
theorem c4_bubble_reset_witness :
    applyInteractions c4cfg oz (QuadTree.leaf ⟨0, 0, 100, 100⟩ [c4p])
      ⟨50, 50, false⟩ [c4p] = [bubbleReset c4p] :=
  (c4_bubble_reset c4cfg oz (QuadTree.leaf ⟨0, 0, 100, 100⟩ [c4p])
    ⟨50, 50, false⟩ [c4p] rfl).1 (Or.inl rfl)

/-! ### C3 — radius and opacity bounds -/

/-- When enabled, the opacity machine always lands in `[0, 1]` thanks to
its final two clamps. -/
theorem handleOpacityAnimation_bounds (cfg : Config) (delta : ℚ)
    (q : Particle) (he : cfg.opacity.anim.enable = true) :
    0 ≤ (handleOpacityAnimation cfg delta q).opacity ∧
    (handleOpacityAnimation cfg delta q).opacity ≤ 1 := by
  simp only [handleOpacityAnimation, he, if_true]
  split_ifs <;> constructor
  all_goals try simp
  all_goals linarith

/-- When enabled and the configured bounds are sane, the size machine
always lands in `[size_min, size.value]`. -/
theorem handleSizeAnimation_bounds (cfg : Config) (delta : ℚ)
    (q : Particle) (he : cfg.size.anim.enable = true)
    (h0 : 0 ≤ cfg.size.anim.size_min)
    (h1 : cfg.size.anim.size_min ≤ cfg.size.value) :
    cfg.size.anim.size_min ≤ (handleSizeAnimation cfg delta q).radius ∧
    (handleSizeAnimation cfg delta q).radius ≤ cfg.size.value := by
  simp only [handleSizeAnimation, he, if_true]
  split_ifs <;> constructor
  all_goals try simp
  all_goals linarith

/-- C3 (amended): after any full engine tick, a particle's opacity lies
within `[0, 1]` provided the opacity animation is enabled, and its
radius lies within `[configured size minimum, configured maximum]`
provided the size animation is enabled and the configured bounds satisfy
`0 ≤ size_min ≤ size.value`; without the animation machines (or with
hover-bubble active) the state is not clamped. -/
theorem c3_bounds_amended (cfg : Config) (o : Oracle) (mouse : Mouse)
    (w h delta : ℚ) (ps : List Particle) :
    (cfg.opacity.anim.enable = true →
      ∀ q ∈ Engine.render cfg o mouse w h delta ps,
        0 ≤ q.opacity ∧ q.opacity ≤ 1) ∧
    (cfg.size.anim.enable = true → 0 ≤ cfg.size.anim.size_min →
     cfg.size.anim.size_min ≤ cfg.size.value →
      ∀ q ∈ Engine.render cfg o mouse w h delta ps,
        cfg.size.anim.size_min ≤ q.radius ∧ q.radius ≤ cfg.size.value) := by
  constructor
  · intro hop q hq
    simp only [Engine.render] at hq
    rw [List.mem_map] at hq
    obtain ⟨r, hr, rfl⟩ := hq
    simp only [Particle.update, hop, if_true]
    split_ifs <;>
      first
      | (simp; exact handleOpacityAnimation_bounds cfg delta _ hop)
      | exact handleOpacityAnimation_bounds cfg delta _ hop
  · intro hsz h0 h1 q hq
    simp only [Engine.render] at hq
    rw [List.mem_map] at hq
    obtain ⟨r, hr, rfl⟩ := hq
    simp only [Particle.update, hsz, if_true]
    split_ifs <;>
      first
      | (simp; exact handleSizeAnimation_bounds cfg delta _ hsz h0 h1)
      | exact handleSizeAnimation_bounds cfg delta _ hsz h0 h1

/-- Bubble-active configuration with both animations disabled, bubble
size 80 against maximum size 3, and an unvalidated opacity value of 2. -/
def c3cfg : Config :=
  { baseCfg with
      opacity := ⟨2, false, ⟨false, 1, 1 / 10, false⟩⟩
      rotate := ⟨false, 0, false, ⟨false, 2, "counter-clockwise", false⟩⟩
      sway := { baseCfg.sway with enable := false }
      interactivity := { baseCfg.interactivity with events :=
          { baseCfg.interactivity.events with
              onhover := ⟨true, "bubble"⟩ } } }

/-- The C3 counterexample particle: sitting exactly under the pointer,
with radius 3 (the configured maximum) and opacity 2 (the configured,
unvalidated opacity value). -/
def c3p : Particle :=
  { mkP 0 5 5 with radius := 3, initialRadius := 3,
                   opacity := 2, initialOpacity := 2 }

/-- C3 counterexample: one full tick with hover-bubble active leaves the
particle at radius 80 — far above the configured maximum size 3 — and at
opacity 2, outside `[0, 1]`; the only `Math.sqrt` call is at 0, where
the zero oracle agrees with the real square root. -/
theorem c3_counterexample :
    (Engine.render c3cfg oz ⟨5, 5, true⟩ 100 100 1 [c3p]).map
      (fun q => (q.radius, q.opacity)) = [(80, 2)] ∧
    c3cfg.size.value = 3 ∧ ¬ ((80 : ℚ) ≤ 3) ∧ ¬ ((2 : ℚ) ≤ 1) := by
  refine ⟨?_, rfl, by norm_num, by norm_num⟩
  norm_num [Engine.render, buildTree, applyAttraction, applyInteractions,
    applyEffect, bubbleReset, Particle.update, handleOutMode, handleSway,
    handleOpacityAnimation, handleSizeAnimation, handleRotationAnimation,
    QuadTree.insert, QuadTree.query, Boundary.contains, Boundary.intersects,
    c3cfg, baseCfg, c3p, mkP, oz,
    (show ("bubble" : String) ≠ "grab" by decide),
    (show ("bubble" : String) ≠ "repulse" by decide),
    (show ("out" : String) ≠ "bounce" by decide)]

/-- Configuration with the opacity animation enabled, for the C3
witness. -/
def c3wcfg : Config :=
  { baseCfg with opacity := ⟨1 / 2, false, ⟨true, 1, 1 / 10, false⟩⟩ }

/-- Witness for C3 (amended): a tick with the opacity animation enabled
keeps opacity in `[0, 1]` — instantiated on a singleton population with
the pointer inactive. -/
theorem c3_bounds_amended_witness :
    ∀ q ∈ Engine.render c3wcfg oz ⟨0, 0, false⟩ 100 100 1 [mkP 0 5 5],
      0 ≤ q.opacity ∧ q.opacity ≤ 1 :=
  (c3_bounds_amended c3wcfg oz ⟨0, 0, false⟩ 100 100 1 [mkP 0 5 5]).1 rfl

/-! ### C9 / C10 — remove-mode click -/

theorem insertByDist_perm (m : Mouse) (a : Particle) :
    ∀ l : List Particle, (Engine.insertByDist m a l).Perm (a :: l) := by
  intro l
  induction l with
  | nil => simp [Engine.insertByDist]
  | cons b t ih =>
    simp only [Engine.insertByDist]
    split_ifs with hd
    · exact List.Perm.refl _
    · exact (ih.cons b).trans (List.Perm.swap a b t)

theorem sortByDistSq_perm (m : Mouse) :
    ∀ l : List Particle, (Engine.sortByDistSq m l).Perm l := by
  intro l
  induction l with
  | nil => simp [Engine.sortByDistSq]
  | cons a t ih =>
    exact (insertByDist_perm m a (Engine.sortByDistSq m t)).trans (ih.cons a)

theorem insertByDist_sorted (m : Mouse) (a : Particle) :
    ∀ l : List Particle,
      l.Pairwise (fun x y =>
        Engine.distSqToMouse m x ≤ Engine.distSqToMouse m y) →
      (Engine.insertByDist m a l).Pairwise (fun x y =>
        Engine.distSqToMouse m x ≤ Engine.distSqToMouse m y) := by
  intro l
  induction l with
  | nil => intro _; simp [Engine.insertByDist]
  | cons b t ih =>
    intro h
    rw [List.pairwise_cons] at h
    simp only [Engine.insertByDist]
    split_ifs with hd
    · rw [List.pairwise_cons]
      refine ⟨?_, List.pairwise_cons.mpr h⟩
      intro y hy
      rcases List.mem_cons.mp hy with rfl | hy
      · exact hd
      · exact le_trans hd (h.1 y hy)
    · rw [List.pairwise_cons]
      refine ⟨?_, ih h.2⟩
      intro y hy
      rcases List.mem_cons.mp ((insertByDist_perm m a t).mem_iff.mp hy) with
        rfl | hy
      · exact le_of_not_le hd
      · exact h.1 y hy

theorem sortByDistSq_sorted (m : Mouse) :
    ∀ l : List Particle,
      (Engine.sortByDistSq m l).Pairwise (fun x y =>
        Engine.distSqToMouse m x ≤ Engine.distSqToMouse m y) := by
  intro l
  induction l with
  | nil => simp [Engine.sortByDistSq]
  | cons a t ih => exact insertByDist_sorted m a _ ih

theorem insertByDist_lex (m : Mouse) (a : Particle) :
    ∀ l : List Particle,
      l.Pairwise (fun x y =>
        Engine.distSqToMouse m x < Engine.distSqToMouse m y ∨
        (Engine.distSqToMouse m x = Engine.distSqToMouse m y ∧
          x.pid < y.pid)) →
      (∀ y ∈ l, a.pid < y.pid) →
      (Engine.insertByDist m a l).Pairwise (fun x y =>
        Engine.distSqToMouse m x < Engine.distSqToMouse m y ∨
        (Engine.distSqToMouse m x = Engine.distSqToMouse m y ∧
          x.pid < y.pid)) := by
  intro l
  induction l with
  | nil => intro _ _; simp [Engine.insertByDist]
  | cons b t ih =>
    intro h hp
    rw [List.pairwise_cons] at h
    simp only [Engine.insertByDist]
    split_ifs with hd
    · rw [List.pairwise_cons]
      refine ⟨?_, List.pairwise_cons.mpr h⟩
      intro y hy
      rcases List.mem_cons.mp hy with rfl | hy
      · rcases lt_or_eq_of_le hd with hlt | heq
        · exact Or.inl hlt
        · exact Or.inr ⟨heq, hp _ (List.mem_cons_self _ _)⟩
      · rcases h.1 y hy with hby | ⟨hbe, _⟩
        · exact Or.inl (lt_of_le_of_lt hd hby)
        · rcases lt_or_eq_of_le hd with hlt | heq
          · exact Or.inl (by rw [← hbe]; exact hlt)
          · exact Or.inr ⟨heq.trans hbe, hp _ (List.mem_cons_of_mem _ hy)⟩
    · rw [List.pairwise_cons]
      refine ⟨?_, ih h.2
        (fun y hy => hp y (List.mem_cons_of_mem b hy))⟩
      intro y hy
      rcases List.mem_cons.mp ((insertByDist_perm m a t).mem_iff.mp hy) with
        rfl | hy
      · exact Or.inl (lt_of_not_le hd)
      · exact h.1 y hy

theorem sortByDistSq_lex (m : Mouse) :
    ∀ l : List Particle, l.Pairwise (fun x y => x.pid < y.pid) →
      (Engine.sortByDistSq m l).Pairwise (fun x y =>
        Engine.distSqToMouse m x < Engine.distSqToMouse m y ∨
        (Engine.distSqToMouse m x = Engine.distSqToMouse m y ∧
          x.pid < y.pid)) := by
  intro l
  induction l with
  | nil => intro _; simp [Engine.sortByDistSq]
  | cons a t ih =>
    intro h
    rw [List.pairwise_cons] at h
    refine insertByDist_lex m a _ (ih h.2) ?_
    intro y hy
    exact h.1 y ((sortByDistSq_perm m t).mem_iff.mp hy)

/-- C9: a remove-mode click with configured quantity `q` removes exactly
`min q n` particles and no others (the survivors are a permutation
complement), and every removed particle is strictly closer to the click
point than every survivor, with exact ties broken by the original list
order (tracked here by the strictly increasing `pid`s). -/
theorem c9_remove_closest (cfg : Config) (mouse : Mouse)
    (spawn : ℕ → Particle) (ps : List Particle)
    (hen : cfg.interactivity.events.onclick.enable = true)
    (hmode : cfg.interactivity.events.onclick.mode = "remove")
    (hpids : ps.Pairwise (fun x y => x.pid < y.pid)) :
    ∃ removed : List Particle,
      removed.length =
        min cfg.interactivity.modes.remove.quantity ps.length ∧
      (removed ++ Engine.handleClick cfg mouse spawn ps).Perm ps ∧
      ∀ r ∈ removed, ∀ s ∈ Engine.handleClick cfg mouse spawn ps,
        Engine.distSqToMouse mouse r < Engine.distSqToMouse mouse s ∨
        (Engine.distSqToMouse mouse r = Engine.distSqToMouse mouse s ∧
          r.pid < s.pid) := by
  have hcl : Engine.handleClick cfg mouse spawn ps =
      (Engine.sortByDistSq mouse ps).drop
        cfg.interactivity.modes.remove.quantity := by
    simp [Engine.handleClick, hen, hmode,
      (show ("remove" : String) ≠ "push" by decide)]
  refine ⟨(Engine.sortByDistSq mouse ps).take
    cfg.interactivity.modes.remove.quantity, ?_, ?_, ?_⟩
  · rw [List.length_take, (sortByDistSq_perm mouse ps).length_eq]
  · rw [hcl, List.take_append_drop]
    exact sortByDistSq_perm mouse ps
  · intro r hr s hs
    rw [hcl] at hs
    have hlex := sortByDistSq_lex mouse ps hpids
    rw [← List.take_append_drop cfg.interactivity.modes.remove.quantity
      (Engine.sortByDistSq mouse ps), List.pairwise_append] at hlex
    exact hlex.2.2 r hr s hs

/-- Particles shared by the click-mode witnesses: squared distances to
the origin are 100, 1 and 25 in list order, with increasing `pid`s. -/
def pa : Particle := mkP 0 10 0

/-- Second click-witness particle (closest to the origin). -/
def pb : Particle := mkP 1 1 0

/-- Third click-witness particle (middle distance). -/
def pc : Particle := mkP 2 5 0

/-- Remove-on-click configuration with quantity 2. -/
def c9cfg : Config :=
  { baseCfg with interactivity :=
      { baseCfg.interactivity with events :=
          { baseCfg.interactivity.events with
              onclick := ⟨true, "remove"⟩ } } }

/-- Witness for C9: removing the closest 2 of 3 particles leaves exactly
one survivor. -/
theorem c9_remove_closest_witness :
    (Engine.handleClick c9cfg ⟨0, 0, true⟩ (fun _ => mkP 99 0 0)
      [pa, pb, pc]).length = 1 := by
  obtain ⟨rem, hlen, hperm, -⟩ := c9_remove_closest c9cfg ⟨0, 0, true⟩
    (fun _ => mkP 99 0 0) [pa, pb, pc] rfl rfl
    (by norm_num [List.pairwise_cons, pa, pb, pc, mkP])
  have hq : c9cfg.interactivity.modes.remove.quantity = 2 := rfl
  have h3 := hperm.length_eq
  rw [List.length_append, hlen, hq] at h3
  simp only [List.length_cons, List.length_nil] at h3
  omega

/-- Remove-on-click configuration with quantity 1. -/
def c10cfg : Config :=
  { c9cfg with interactivity :=
      { c9cfg.interactivity with modes :=
          { c9cfg.interactivity.modes with remove := ⟨1⟩ } } }

/-- C10: a remove-mode click re-sorts the whole particle array by
ascending squared distance before splicing, so the surviving list is in
distance order rather than the pre-click order; on the concrete list
`[pa, pb, pc]` (distances 100, 1, 25) removing the closest one yields
`[pc, pa]`, reversing the survivors' original relative order. -/
theorem c10_remove_reorders (cfg : Config) (mouse : Mouse)
    (spawn : ℕ → Particle) (ps : List Particle)
    (hen : cfg.interactivity.events.onclick.enable = true)
    (hmode : cfg.interactivity.events.onclick.mode = "remove") :
    (Engine.handleClick cfg mouse spawn ps).Pairwise (fun x y =>
      Engine.distSqToMouse mouse x ≤ Engine.distSqToMouse mouse y) ∧
    (Engine.handleClick c10cfg ⟨0, 0, true⟩ (fun _ => mkP 99 0 0)
        [pa, pb, pc] = [pc, pa] ∧
      ([pc, pa] : List Particle) ≠ [pa, pc]) := by
  refine ⟨?_, ?_, ?_⟩
  · have hcl : Engine.handleClick cfg mouse spawn ps =
        (Engine.sortByDistSq mouse ps).drop
          cfg.interactivity.modes.remove.quantity := by
      simp [Engine.handleClick, hen, hmode,
        (show ("remove" : String) ≠ "push" by decide)]
    rw [hcl]
    exact (sortByDistSq_sorted mouse ps).sublist (List.drop_sublist _ _)
  · norm_num [Engine.handleClick, Engine.sortByDistSq, Engine.insertByDist,
      Engine.distSqToMouse, c10cfg, c9cfg, baseCfg, pa, pb, pc, mkP,
      (show ("remove" : String) ≠ "push" by decide)]
  · norm_num [pa, pc, mkP]

/-- Witness for C10: the survivors of the concrete remove click are in
ascending distance order. -/
theorem c10_remove_reorders_witness :
    (Engine.handleClick c10cfg ⟨0, 0, true⟩ (fun _ => mkP 99 0 0)
      [pa, pb, pc]).Pairwise (fun x y =>
        Engine.distSqToMouse ⟨0, 0, true⟩ x ≤
          Engine.distSqToMouse ⟨0, 0, true⟩ y) :=
  (c10_remove_reorders c10cfg ⟨0, 0, true⟩ (fun _ => mkP 99 0 0)
    [pa, pb, pc] rfl rfl).1

end ParticlesLite
